import Mathlib

/-!
# go-vise: opcode tables, filesystem key-value store, not-found errors, VM runner

A shallow embedding of

* `go/vm/opcodes.go`  : the opcode constants and the two opcode tables,
* `db/error.go`       : `ErrNotFound`, `NewErrNotFound`, `IsNotFound`,
* `db/fs.go`          : `fsDb.Get`, `fsDb.Put`, `pathFor`, `altPathFor`,
* `go/vm/runner_test.go` : the test resource (`TestResource.GetCode`, `FuncFor`),

together with a model of the VM runner, which the repository's tests call but
whose source file is not part of the sources at hand.

Go byte slices and Go strings are both sequences of bytes; they are embedded
as lists of natural numbers, each below 256.
-/

set_option autoImplicit false

/-- A Go `[]byte` or `string`: a sequence of bytes. -/
abbrev Bytes := List Nat

/-- The bytes of an ASCII string literal. -/
def lit (s : String) : Bytes := s.toList.map Char.toNat

/-! ## go/vm/opcodes.go -/

namespace vm

def NOOP : Nat := 0
def CATCH : Nat := 1
def CROAK : Nat := 2
def LOAD : Nat := 3
def RELOAD : Nat := 4
def MAP : Nat := 5
def MOVE : Nat := 6
def HALT : Nat := 7
def INCMP : Nat := 8
def MSIZE : Nat := 9
def MOUT : Nat := 10
def _MAX : Nat := 10

/-- The map literal `OpcodeString`, as its list of key/value rows; a lookup in
the Go map is `OpcodeString.lookup`. -/
def OpcodeString : List (Nat × String) :=
  [ (NOOP, "NOOP"),
    (CATCH, "CATCH"),
    (CROAK, "CROAK"),
    (LOAD, "LOAD"),
    (RELOAD, "RELOAD"),
    (MAP, "MAP"),
    (MOVE, "MOVE"),
    (HALT, "HALT"),
    (INCMP, "INCMP"),
    (MSIZE, "MSIZE"),
    (MOUT, "MOUT") ]

/-- The map literal `OpcodeIndex`, as its list of key/value rows. -/
def OpcodeIndex : List (String × Nat) :=
  [ ("NOOP", NOOP),
    ("CATCH", CATCH),
    ("CROAK", CROAK),
    ("LOAD", LOAD),
    ("RELOAD", RELOAD),
    ("MAP", MAP),
    ("MOVE", MOVE),
    ("HALT", HALT),
    ("INCMP", INCMP),
    ("MSIZE", MSIZE),
    ("MOUT", MOUT) ]

end vm

/-! ## db/error.go -/

namespace db

/-- The constant `notFoundPrefix`. -/
def notFoundPrefix : Bytes := lit "key not found: "

/-- The struct `ErrNotFound`. -/
structure ErrNotFound where
  k : Bytes
deriving DecidableEq, Repr

/-- Error numbers carried by the `*fs.PathError` values of the `os` package. -/
inductive Errno where
  | ENOENT
  | EACCES
  | EISDIR
  | ENOTDIR
deriving DecidableEq, Repr

/-- The text of an error number, as `syscall.Errno.Error` gives it. -/
def Errno.text : Errno → Bytes
  | .ENOENT => lit "no such file or directory"
  | .EACCES => lit "permission denied"
  | .EISDIR => lit "is a directory"
  | .ENOTDIR => lit "not a directory"

/-- The values of Go's `error` interface that the package meets: its own
`ErrNotFound`, the `*fs.PathError` of a failed file operation, and an error
made by `errors.New` (any message). -/
inductive GoError where
  | notFound (e : ErrNotFound)
  | pathError (op : Bytes) (path : Bytes) (errno : Errno)
  | plain (msg : Bytes)
deriving DecidableEq, Repr

/-- One lowercase hexadecimal digit, as a byte. -/
def hexDigit (n : Nat) : Nat := if n < 10 then 48 + n else 87 + n

/-- The verb `%x` of `fmt.Sprintf` on a byte slice: two lowercase hexadecimal
digits per byte, no separator. -/
def hexEncode : Bytes → Bytes
  | [] => []
  | b :: bs => hexDigit (b / 16) :: hexDigit (b % 16) :: hexEncode bs

/-- The value of one hexadecimal digit byte, if it is one (either case). -/
def hexValue (c : Nat) : Option Nat :=
  if 48 ≤ c ∧ c ≤ 57 then some (c - 48)
  else if 97 ≤ c ∧ c ≤ 102 then some (c - 87)
  else if 65 ≤ c ∧ c ≤ 70 then some (c - 55)
  else none

/-- The inverse reading of `hexEncode` (what `encoding/hex` decodes). -/
def hexDecode : Bytes → Option Bytes
  | [] => some []
  | [_] => none
  | h :: l :: rest =>
    match hexValue h, hexValue l, hexDecode rest with
    | some a, some b, some bs => some ((a * 16 + b) :: bs)
    | _, _, _ => none

/-- `NewErrNotFound`. -/
def NewErrNotFound (k : Bytes) : GoError := .notFound { k := k }

/-- `ErrNotFound.Error`: `fmt.Sprintf("%s%x", notFoundPrefix, e.k)`. -/
def ErrNotFound.Error (e : ErrNotFound) : Bytes := notFoundPrefix ++ hexEncode e.k

/-- The method `Error()` of an error value. A `*fs.PathError` prints as
`Op + " " + Path + ": " + Err.Error()`. -/
def GoError.Error : GoError → Bytes
  | .notFound e => e.Error
  | .pathError op path errno => op ++ lit " " ++ path ++ lit ": " ++ errno.text
  | .plain msg => msg

/-- Whether `sub` starts `s` (`strings.HasPrefix`). -/
def hasPrefix : Bytes → Bytes → Bool
  | _, [] => true
  | [], _ :: _ => false
  | a :: s, b :: sub => a == b && hasPrefix s sub

/-- `strings.Contains(s, sub)`: `sub` occurs at some position of `s`. -/
def stringsContains : Bytes → Bytes → Bool
  | [], sub => hasPrefix [] sub
  | a :: s, sub => hasPrefix (a :: s) sub || stringsContains s sub

/-- `ErrNotFound.Is`. -/
def ErrNotFound.Is (_e : ErrNotFound) (err : GoError) : Bool :=
  stringsContains err.Error notFoundPrefix

/-- `IsNotFound`. -/
def IsNotFound (err : GoError) : Bool :=
  let target : ErrNotFound := { k := [] }
  target.Is err

/-! ## db/fs.go -/

/-- The struct `lookupKey` of the base store (its declaration is not among the
sources at hand; `fs.go` reads the two fields below). A nil `Translation` is
`none`. -/
structure lookupKey where
  Default : Bytes
  Translation : Option Bytes
deriving DecidableEq, Repr

/-- The struct `fsLookupKey`: string (filepath) versions of a `lookupKey`. The
zero value of a Go string is the empty string. -/
structure fsLookupKey where
  Default : Bytes
  Translation : Bytes
deriving DecidableEq, Repr

/-- How a call ends when it does not give its value: with a returned `error`,
or with a runtime panic (index or slice bound out of range). -/
inductive Fail where
  | error (e : GoError)
  | panic
deriving DecidableEq, Repr

/-- The embedded `baseDb` as far as `fs.go` uses it. Its source is not at hand,
so `ToKey` (with the session, language and context settings it reads),
`checkPut` and the constant `DATATYPE_BIN` are taken as given. -/
structure baseDb where
  pfx : Nat
  DATATYPE_BIN : Nat
  ToKey : Bytes → Except GoError lookupKey
  checkPut : Bool

/-- The struct `fsDb`. -/
structure fsDb where
  base : baseDb
  dir : Bytes

/-! ### Package `path` of the Go standard library

`fs.go` builds every file name with `path.Join`. The package is not part of
the repository; it is embedded here after its documented rules: `Clean`
replaces multiple slashes by one, eliminates each `.` element, eliminates each
inner `..` element along with the element that precedes it, eliminates `..`
elements that begin a rooted path, and returns `.` for an empty result. -/

/-- The elements of a path between its slashes (byte 47). -/
def splitSlash : Bytes → List Bytes
  | [] => [[]]
  | c :: cs =>
    if c = 47 then [] :: splitSlash cs
    else
      match splitSlash cs with
      | [] => [[c]]
      | e :: es => (c :: e) :: es

/-- The element loop of `path.Clean`: `acc` holds the elements written so far,
last one first. An empty element and `.` (byte 46) are dropped; `..` removes
the last element written when there is one that is not itself `..`, is kept
when the path is not rooted, and is dropped at the root. -/
def cleanElems (rooted : Bool) : List Bytes → List Bytes → List Bytes
  | acc, [] => acc.reverse
  | acc, e :: es =>
    if e = [] ∨ e = [46] then cleanElems rooted acc es
    else if e = [46, 46] then
      match acc with
      | top :: below =>
        if top = [46, 46] then cleanElems rooted (e :: acc) es
        else cleanElems rooted below es
      | [] => if rooted then cleanElems rooted [] es else cleanElems rooted [e] es
    else cleanElems rooted (e :: acc) es

/-- The elements joined by single slashes. -/
def joinSlash : List Bytes → Bytes
  | [] => []
  | [e] => e
  | e :: es => e ++ 47 :: joinSlash es

/-- `path.Clean`: the empty path is `.`; a rooted path keeps its leading
slash; a path that cleans to nothing is `.`. -/
def pathClean (p : Bytes) : Bytes :=
  if p = [] then [46]
  else
    let rooted := p.head? == some 47
    let out := joinSlash (cleanElems rooted [] (splitSlash p))
    if rooted then 47 :: out
    else if out = [] then [46] else out

/-- `path.Join` of two elements: empty elements are ignored, the others are
joined by a slash and cleaned; when both are empty the result is empty. -/
def pathJoin (a b : Bytes) : Bytes :=
  if a = [] ∧ b = [] then []
  else if a = [] then pathClean b
  else if b = [] then pathClean a
  else pathClean (a ++ 47 :: b)

/-! ### The file system -/

/-- What a path names. -/
inductive Node where
  | absent
  | file (content : Bytes)
  | directory
  | fault (errno : Errno)
deriving DecidableEq, Repr

/-- A file system: what each path names. -/
abbrev FS := Bytes → Node

/-- An open `*os.File`. -/
structure File where
  path : Bytes
  node : Node
deriving DecidableEq, Repr

/-- `os.Open`. -/
def osOpen (fs : FS) (fp : Bytes) : Except GoError File :=
  match fs fp with
  | .absent => .error (.pathError (lit "open") fp .ENOENT)
  | .fault errno => .error (.pathError (lit "open") fp errno)
  | n => .ok { path := fp, node := n }

/-- `errors.Is(err, fs.ErrNotExist)`. -/
def isNotExist : GoError → Bool
  | .pathError _ _ .ENOENT => true
  | _ => false

/-- `ioutil.ReadAll` on an open file. -/
def readAll (f : File) : Except GoError Bytes :=
  match f.node with
  | .file content => .ok content
  | _ => .error (.pathError (lit "read") f.path .EISDIR)

/-- The directory that holds a path: the path without its last element (`/`
for an element at the root, `.` for a single relative element). -/
def parentDir (p : Bytes) : Bytes :=
  let dir := joinSlash (splitSlash p).dropLast
  if dir = [] then (if p.head? == some 47 then [47] else [46]) else dir

/-- `ioutil.WriteFile`: truncates the file and writes `val`, or creates the
file when the path names nothing and the directory that holds it exists. -/
def writeFile (fs : FS) (fp : Bytes) (val : Bytes) : Except GoError FS :=
  match fs fp with
  | .directory => .error (.pathError (lit "open") fp .EISDIR)
  | .fault errno => .error (.pathError (lit "open") fp errno)
  | .file _ => .ok (fun q => if q = fp then .file val else fs q)
  | .absent =>
    match fs (parentDir fp) with
    | .directory => .ok (fun q => if q = fp then .file val else fs q)
    | .absent => .error (.pathError (lit "open") fp .ENOENT)
    | .file _ => .error (.pathError (lit "open") fp .ENOTDIR)
    | .fault errno => .error (.pathError (lit "open") fp errno)

/-! ### `pathFor`, `altPathFor`, `Get`, `Put` -/

/-- The statement `b[0] += 0x30` on a byte slice; it panics on an empty
slice. -/
def addFirst (b : Bytes) : Except Fail Bytes :=
  match b with
  | [] => .error .panic
  | x :: xs => .ok (((x + 0x30) % 256) :: xs)

/-- `fsDb.pathFor`. The function writes through its pointer argument, so the
changed `lookupKey` is returned next to the result. -/
def pathFor (fdb : fsDb) (lk : lookupKey) : Except Fail (fsLookupKey × lookupKey) :=
  match addFirst lk.Default with
  | .error f => .error f
  | .ok d =>
    match lk.Translation with
    | none =>
      .ok ({ Default := pathJoin fdb.dir d, Translation := [] },
           { Default := d, Translation := none })
    | some t =>
      match addFirst t with
      | .error f => .error f
      | .ok t1 =>
        .ok ({ Default := pathJoin fdb.dir d, Translation := pathJoin fdb.dir t1 },
             { Default := d, Translation := some t1 })

/-- The slice expression `b[1:]`; it panics on an empty slice. -/
def dropFirst (b : Bytes) : Except Fail Bytes :=
  match b with
  | [] => .error .panic
  | _ :: xs => .ok xs

/-- The file name of `altPathFor` for one key: the key without its first byte,
with `.bin` appended for the binary data type. -/
def altName (fdb : fsDb) (k : Bytes) : Except Fail Bytes :=
  match dropFirst k with
  | .error f => .error f
  | .ok fb =>
    if fdb.base.pfx = fdb.base.DATATYPE_BIN then .ok (fb ++ lit ".bin") else .ok fb

/-- `fsDb.altPathFor`. -/
def altPathFor (fdb : fsDb) (lk : lookupKey) : Except Fail fsLookupKey :=
  match altName fdb lk.Default with
  | .error f => .error f
  | .ok fb =>
    match lk.Translation with
    | none => .ok { Default := pathJoin fdb.dir fb, Translation := [] }
    | some t =>
      match altName fdb t with
      | .error f => .error f
      | .ok fbt => .ok { Default := pathJoin fdb.dir fb, Translation := pathJoin fdb.dir fbt }

/-- The slice that the loop of `Get` ranges over. -/
def candidatePaths (flk flka : fsLookupKey) : List Bytes :=
  [flk.Translation, flka.Translation, flk.Default, flka.Default]

/-- The loop of `Get`: the value of `f` when the loop is left (`none` is the
nil file), or the error it returns. -/
def openFirst (fs : FS) : List Bytes → Except GoError (Option File)
  | [] => .ok none
  | fp :: rest =>
    if fp = [] then openFirst fs rest
    else
      match osOpen fs fp with
      | .ok f => .ok (some f)
      | .error err => if isNotExist err then openFirst fs rest else .error err

/-- A path fails to open with a does-not-exist error. -/
def opensNotExist (fs : FS) (p : Bytes) : Prop :=
  ∃ err, osOpen fs p = .error err ∧ isNotExist err = true

/-- `fsDb.Get`. -/
def Get (fdb : fsDb) (fs : FS) (key : Bytes) : Except Fail Bytes :=
  match fdb.base.ToKey key with
  | .error err => .error (.error err)
  | .ok lk =>
    match pathFor fdb lk with
    | .error f => .error f
    | .ok (flk, lk1) =>
      match altPathFor fdb lk1 with
      | .error f => .error f
      | .ok flka =>
        match openFirst fs (candidatePaths flk flka) with
        | .error err => .error (.error err)
        | .ok none => .error (.error (NewErrNotFound key))
        | .ok (some f) =>
          match readAll f with
          | .error err => .error (.error err)
          | .ok b => .ok b

/-- `fsDb.Put`; the result is the file system after the call. -/
def Put (fdb : fsDb) (fs : FS) (key val : Bytes) : Except Fail FS :=
  if !fdb.base.checkPut then .error (.error (.plain (lit "unsafe put and safety set")))
  else
    match fdb.base.ToKey key with
    | .error err => .error (.error err)
    | .ok lk =>
      match pathFor fdb lk with
      | .error f => .error f
      | .ok (flk, _) =>
        if flk.Translation ≠ [] then
          match writeFile fs flk.Translation val with
          | .error err => .error (.error err)
          | .ok fs1 =>
            match writeFile fs1 flk.Default val with
            | .error err => .error (.error err)
            | .ok fs2 => .ok fs2
        else
          match writeFile fs flk.Default val with
          | .error err => .error (.error err)
          | .ok fs2 => .ok fs2

/-- Whether path `p` lies beneath the directory `dir`: it has `dir` and a slash
as a proper prefix. -/
def liesBeneath (dir p : Bytes) : Bool :=
  hasPrefix p (dir ++ [47]) && decide (dir.length + 1 < p.length)

/-! ### A store and a file system for the examples -/

/-- Modelled from the spec: a `ToKey` for the examples (the method of the base
store is missing): keys are typed by a leading prefix byte (section 6), and,
when a language is set, there is a translation form with `_` and the language
code appended. -/
def exampleToKey (pfx : Nat) (lang : Option Bytes) (key : Bytes) : Except GoError lookupKey :=
  .ok { Default := pfx :: key, Translation := lang.map (fun l => pfx :: (key ++ 95 :: l)) }

/-- A connected store of templates (prefix byte 4) with language `nor`. -/
def exampleDb : fsDb :=
  { base := { pfx := 4, DATATYPE_BIN := 1, ToKey := exampleToKey 4 (some (lit "nor")),
              checkPut := true },
    dir := lit "/srv/vise" }

/-- A connected store of templates (prefix byte 4) with no language set. -/
def exampleDbPlain : fsDb :=
  { base := { pfx := 4, DATATYPE_BIN := 1, ToKey := exampleToKey 4 none, checkPut := true },
    dir := lit "/srv/vise" }

/-- A file system with the base directory, a template `foo` in its default and
its translated form, a legacy file `bar` that may not be opened, and nothing
else. -/
def exampleFs : FS := fun p =>
  if p = lit "/srv/vise" then .directory
  else if p = lit "/srv/vise/4foo_nor" then .file (lit "hei")
  else if p = lit "/srv/vise/4foo" then .file (lit "hello")
  else if p = lit "/srv/vise/bar" then .fault .EACCES
  else .absent

/-- A file system with the base directory and the template `foo`, whose
translated form may not be opened while its default form is a readable file. -/
def exampleFsDenied : FS := fun p =>
  if p = lit "/srv/vise" then .directory
  else if p = lit "/srv/vise/4foo_nor" then .fault .EACCES
  else if p = lit "/srv/vise/4foo" then .file (lit "hello")
  else .absent

end db

/-! ## The VM runner

`go/vm/runner_test.go` drives `NewLine`, `NewVm` and `Vm.Run`; the files that
define them, and the state, cache and render packages they use, are not among
the sources at hand. They are modelled here from the specification (sections 3,
4.1 to 4.6, 6 and 7). Where the specification names a token or a flag without
fixing its value, the value is a field of `VmConfig`. -/

namespace vm

/-- Modelled from the spec: the error kinds of section 7 (the runner's source is
missing). -/
inductive VmError where
  | NotFound
  | BadInstruction
  | TruncatedCode
  | DuplicateSymbol
  | UnknownSymbol
  | OverBudget
  | StackUnderflow
  | LoadFail
  | ResolveFail
  | MissingSymbol
  | Terminated
  | Canceled
deriving DecidableEq, Repr

/-- Modelled from the spec: an instruction (section 3), a 16-bit opcode followed
by a payload of string arguments, a byte argument and flag arguments. The
codec's source is missing. -/
structure Instr where
  op : Nat
  strs : List Bytes
  arg : Bytes
  flags : Bytes
deriving DecidableEq, Repr

/-- Modelled from the spec: the string section of a payload (section 6),
`u8 count | (u8 len | bytes)*`. -/
def encodeStrings (strs : List Bytes) : Bytes :=
  (strs.length % 256) :: (strs.map (fun s => (s.length % 256) :: s)).flatten

/-- Modelled from the spec: the writer `append(buf, op, strings?, arg?, flags?)`
of section 4.1, which the tests call `NewLine` (its source is missing). An
instruction is `opcode:u16 | payload`, big-endian (section 6); the payload is
the strings `u8 count | (u8 len | bytes)*`, the arg `u8 len | bytes` and the
flags `u8 count | bytes`; an argument that is not given is written empty. -/
def NewLine (buf : Bytes) (op : Nat) (strs : List Bytes) (arg flags : Bytes) : Bytes :=
  buf ++ ([op / 256 % 256, op % 256] ++ (encodeStrings strs ++
    ((arg.length % 256) :: arg ++ (flags.length % 256) :: flags)))

/-- Modelled from the spec: the bytes of one instruction. -/
def Instr.encode (i : Instr) : Bytes := NewLine [] i.op i.strs i.arg i.flags

/-- Modelled from the spec: the bytes of a sequence of instructions, one after
the other (section 6: a bytecode stream is the concatenation of its
instructions). -/
def encodeAll : List Instr → Bytes
  | [] => []
  | i :: is => i.encode ++ encodeAll is

/-- Modelled from the spec: an instruction that fits the encoding, every count
and length in one byte and the opcode in sixteen bits. -/
def Instr.fits (i : Instr) : Prop :=
  i.op < 65536 ∧ i.strs.length < 256 ∧ (∀ s ∈ i.strs, s.length < 256) ∧
    i.arg.length < 256 ∧ i.flags.length < 256

instance (i : Instr) : Decidable i.fits := by
  unfold Instr.fits
  infer_instance

/-- Modelled from the spec: read `n` bytes; a short buffer is `TruncatedCode`
(section 4.1). -/
def takeBytes (n : Nat) (b : Bytes) : Except VmError (Bytes × Bytes) :=
  if n ≤ b.length then .ok (b.take n, b.drop n) else .error .TruncatedCode

/-- Modelled from the spec: read one length-prefixed byte string
(`u8 len | bytes`). -/
def readPrefixed (b : Bytes) : Except VmError (Bytes × Bytes) :=
  match b with
  | [] => .error .TruncatedCode
  | n :: r => takeBytes n r

/-- Modelled from the spec: read `count` length-prefixed byte strings. -/
def readStrings : Nat → Bytes → Except VmError (List Bytes × Bytes)
  | 0, b => .ok ([], b)
  | count + 1, b =>
    match readPrefixed b with
    | .error e => .error e
    | .ok (s, r) =>
      match readStrings count r with
      | .error e => .error e
      | .ok (ss, r1) => .ok (s :: ss, r1)

/-- Modelled from the spec: the reader `next(buf) -> (op, payload, rest)` of
section 4.1. It reads one big-endian `u16` opcode, then the payload. An unknown
opcode is `BadInstruction`, a short buffer is `TruncatedCode`. -/
def next (b : Bytes) : Except VmError (Instr × Bytes) :=
  match b with
  | hi :: lo :: r =>
    if _MAX < hi * 256 + lo then .error .BadInstruction
    else
      match r with
      | [] => .error .TruncatedCode
      | count :: r1 =>
        match readStrings count r1 with
        | .error e => .error e
        | .ok (strs, r2) =>
          match readPrefixed r2 with
          | .error e => .error e
          | .ok (arg, r3) =>
            match readPrefixed r3 with
            | .error e => .error e
            | .ok (flags, rest) =>
              .ok ({ op := hi * 256 + lo, strs := strs, arg := arg, flags := flags }, rest)
  | _ => .error .TruncatedCode

/-- Modelled from the spec: one entry of the symbol cache (section 3), a value
with its declared budget. -/
structure CacheEntry where
  sym : Bytes
  val : Bytes
  budget : Nat
deriving DecidableEq, Repr

/-- Modelled from the spec: the symbol cache (sections 3 and 4.2), an ordered
sequence of frames, the newest first, and the configured total budget. -/
structure Cache where
  frames : List (List CacheEntry)
  total : Nat
deriving DecidableEq, Repr

/-- Modelled from the spec: the bytes the cached values use. -/
def Cache.used (c : Cache) : Nat := (c.frames.flatten.map (fun e => e.val.length)).sum

/-- Modelled from the spec: `get(symbol)`, lookup across frames. -/
def Cache.find (c : Cache) (sym : Bytes) : Option CacheEntry :=
  c.frames.flatten.find? (fun e => e.sym = sym)

/-- Modelled from the spec: `push_frame()`. -/
def Cache.push (c : Cache) : Cache := { c with frames := [] :: c.frames }

/-- Modelled from the spec: `pop_frame()`, discard the top frame. -/
def Cache.pop (c : Cache) : Cache := { c with frames := c.frames.tail }

/-- Modelled from the spec: `add(symbol, value, budget)` of section 4.2. It
fails `DuplicateSymbol` if the symbol exists in any frame, `OverBudget` if the
declared budget exceeds the remaining total or the value exceeds the declared
budget (budget 0 is unbounded, subject only to the total); otherwise the entry
is stored in the top frame. On failure the cache is unchanged. -/
def Cache.add (c : Cache) (sym val : Bytes) (budget : Nat) : Except VmError Cache :=
  if (c.find sym).isSome then .error .DuplicateSymbol
  else if c.total - c.used < budget then .error .OverBudget
  else if budget ≠ 0 ∧ budget < val.length then .error .OverBudget
  else if c.total < c.used + val.length then .error .OverBudget
  else
    match c.frames with
    | [] => .ok { c with frames := [[{ sym := sym, val := val, budget := budget }]] }
    | top :: below =>
      .ok { c with frames := (top ++ [{ sym := sym, val := val, budget := budget }]) :: below }

/-- Modelled from the spec: `update(symbol, value)` of section 4.2, which
replaces an existing value and succeeds only if the new length is within the
budget declared at `add`. -/
def Cache.update (c : Cache) (sym val : Bytes) : Except VmError Cache :=
  match c.find sym with
  | none => .error .UnknownSymbol
  | some e =>
    if e.budget ≠ 0 ∧ e.budget < val.length then .error .OverBudget
    else if c.total < c.used - e.val.length + val.length then .error .OverBudget
    else
      .ok { c with frames := c.frames.map (fun fr =>
        fr.map (fun x => if x.sym = sym then { x with val := val } else x)) }

/-- Modelled from the spec: what the VM reads and mutates (section 3): the
navigation stack (top first), the flag register (its width is the length), the
input buffer, the symbol cache, and the renderer's menu entries, substitution
map and menu budget. -/
structure VmState where
  nav : List Bytes
  flags : List Bool
  input : Bytes
  cache : Cache
  menu : List (Bytes × Bytes)
  mapped : List Bytes
  msize : Nat
deriving DecidableEq, Repr

/-- Modelled from the spec: `where()`, the top of the navigation stack (the
empty name when the stack is empty). -/
def VmState.Where (st : VmState) : Bytes := st.nav.headD []

/-- Modelled from the spec: `down(sym)` of section 4.3: push a navigation
frame, clear the input buffer, open a cache frame. -/
def VmState.Down (st : VmState) (sym : Bytes) : VmState :=
  { st with nav := sym :: st.nav, input := [], cache := st.cache.push }

/-- Modelled from the spec: `up()` of section 4.3: pop the navigation frame and
close the cache's top frame; `StackUnderflow` at the bottom frame. -/
def VmState.Up (st : VmState) : Except VmError VmState :=
  match st.nav with
  | _ :: below :: rest => .ok { st with nav := below :: rest, cache := st.cache.pop }
  | _ => .error .StackUnderflow

/-- Modelled from the spec: the jump of CATCH and of the catch dispatch: clear
the current navigation frame and push `sym` (replacement, not nested). -/
def VmState.replaceTop (st : VmState) (sym : Bytes) : VmState :=
  VmState.Down { st with nav := st.nav.tail, cache := st.cache.pop } sym

/-- Modelled from the spec: `get_flag(i)`; the index must be below the width. -/
def VmState.GetFlag (st : VmState) (i : Nat) : Except VmError Bool :=
  if i < st.flags.length then .ok (st.flags.getD i false) else .error .BadInstruction

/-- Modelled from the spec: `set_flag(i)`; the index must be below the width. -/
def VmState.SetFlag (st : VmState) (i : Nat) : Except VmError VmState :=
  if i < st.flags.length then .ok { st with flags := st.flags.set i true }
  else .error .BadInstruction

/-- Modelled from the spec: the wiped state that CROAK leaves. -/
def VmState.wiped (st : VmState) : VmState :=
  { nav := [], flags := List.replicate st.flags.length false, input := [],
    cache := { frames := [], total := st.cache.total }, menu := [], mapped := [], msize := 0 }

/-- Modelled from the spec: the resource resolver as far as the runner calls it
(section 4.4): `code_for(sym)` (`none` is `NotFound`) and `value_of(sym)`, which
may read the state (`none` is a failure). -/
structure Resolver where
  codeFor : Bytes → Option Bytes
  valueOf : Bytes → VmState → Option Bytes

/-- Modelled from the spec: the values the specification leaves to the
surrounding project: the wildcard token of INCMP, its empty-input selector, its
back selector, and the index of the input-invalid system flag. -/
structure VmConfig where
  wildcard : Bytes
  emptySel : Bytes
  backSel : Bytes
  flagInvalid : Nat

/-- Modelled from the spec: the reserved node of the catch dispatch. -/
def catchSym : Bytes := lit "_catch"

/-- Modelled from the spec: the unsigned big-endian value of a byte argument. -/
def beNat (b : Bytes) : Nat := b.foldl (fun acc x => acc * 256 + x) 0

/-- Modelled from the spec: the comparison of INCMP (section 4.6.2): the input
equals the literal byte for byte; the wildcard token matches any non-empty
input; the empty-input selector matches the empty input. -/
def inputMatches (cfg : VmConfig) (lit0 input : Bytes) : Bool :=
  input == lit0 || (lit0 == cfg.wildcard && input != []) ||
    (lit0 == cfg.emptySel && input == [])

/-- Modelled from the spec: the condition of CATCH and CROAK,
`get_flag(flag_idx) == !invert`. The flag index is the first flag argument; the
byte argument, when it is there and not zero, inverts. -/
def flagCond (i : Instr) (st : VmState) : Except VmError Bool :=
  match i.flags with
  | [] => .error .BadInstruction
  | idx :: _ =>
    match st.GetFlag idx with
    | .error e => .error e
    | .ok v => .ok (v == !(i.arg.headD 0 != 0))

/-- Modelled from the spec: the opcodes that act on the state only (section
4.6.2): NOOP, LOAD, RELOAD, MAP, MOVE, MSIZE and MOUT. -/
def execSimple (rs : Resolver) (i : Instr) (st : VmState) : Except VmError VmState :=
  if i.op = NOOP then .ok st
  else if i.op = LOAD then
    match i.strs with
    | [] => .error .BadInstruction
    | sym :: _ =>
      match rs.valueOf sym st with
      | none => .error .LoadFail
      | some v =>
        match st.cache.add sym v (beNat i.arg) with
        | .error e => .error e
        | .ok c => .ok { st with cache := c }
  else if i.op = RELOAD then
    match i.strs with
    | [] => .error .BadInstruction
    | sym :: _ =>
      match rs.valueOf sym st with
      | none => .error .ResolveFail
      | some v =>
        match st.cache.update sym v with
        | .error e => .error e
        | .ok c => .ok { st with cache := c }
  else if i.op = MAP then
    match i.strs with
    | [] => .error .BadInstruction
    | sym :: _ =>
      if (st.cache.find sym).isSome then .ok { st with mapped := st.mapped ++ [sym] }
      else .error .UnknownSymbol
  else if i.op = MOVE then
    match i.strs with
    | [] => .error .BadInstruction
    | sym :: _ => .ok (st.Down sym)
  else if i.op = MSIZE then .ok { st with msize := beNat i.arg }
  else if i.op = MOUT then
    match i.strs with
    | sel :: label :: _ => .ok { st with menu := st.menu ++ [(sel, label)] }
    | _ => .error .BadInstruction
  else .error .BadInstruction

/-- Modelled from the spec: what `Run` returns, as the tests read it: the
remainder and the error (`none` is nil), next to the state it leaves. -/
structure RunResult where
  rest : Bytes
  err : Option VmError
  st : VmState
deriving DecidableEq, Repr

/-- Modelled from the spec: where the run of one buffer stands with its INCMP
instructions (section 4.6.3): none considered yet, some considered and none
matched, or one matched (the instructions up to the next HALT are skipped). -/
inductive Mode where
  | fresh
  | pending
  | matched
deriving DecidableEq, Repr

/-- Modelled from the spec: the errors that section 7 calls recoverable, which
the VM translates into a catch dispatch when `_catch` is resolvable. -/
def VmError.recoverable : VmError → Bool
  | .LoadFail => true
  | .NotFound => true
  | .MissingSymbol => true
  | _ => false

/-- Modelled from the spec: the outcome of one instruction: a failure that ends
the run, the buffer, mode and state to go on with, a stop (HALT or end of
buffer) with the unconsumed tail, or a recoverable error that aborts the
current code, with the unconsumed tail. -/
inductive Step where
  | fail (r : RunResult)
  | next (b : Bytes) (mode : Mode) (st : VmState)
  | stop (rest : Bytes)
  | abort (rest : Bytes) (e : VmError)
deriving DecidableEq, Repr

/-- Modelled from the spec: the semantics of one decoded instruction (section
4.6.2); `rest` is the buffer after it.
HALT stops and the remainder is returned. After a matching INCMP the
instructions up to the next HALT are consumed without being executed. CATCH,
when its condition holds, replaces the navigation frame and discards the
remaining code of the buffer. CROAK, when its condition holds, fails with
`Terminated` and wipes the state. INCMP, when the input matches, moves to the
target, or up when its literal is the back selector. A resolver error of LOAD
aborts the current code with `LoadFail`, the remainder being kept as with HALT;
the other errors are fatal. -/
def execInstr (cfg : VmConfig) (rs : Resolver) (i : Instr) (rest : Bytes) (mode : Mode)
    (st : VmState) : Step :=
  if i.op = HALT then .stop rest
  else if mode = .matched then .next rest .matched st
  else if i.op = CATCH then
    match i.strs, flagCond i st with
    | [], _ => .fail { rest := rest, err := some .BadInstruction, st := st }
    | _ :: _, .error e => .fail { rest := rest, err := some e, st := st }
    | sym :: _, .ok true => .next [] mode (st.replaceTop sym)
    | _ :: _, .ok false => .next rest mode st
  else if i.op = CROAK then
    match flagCond i st with
    | .error e => .fail { rest := rest, err := some e, st := st }
    | .ok true => .fail { rest := [], err := some .Terminated, st := st.wiped }
    | .ok false => .next rest mode st
  else if i.op = INCMP then
    match i.strs with
    | lit0 :: target :: _ =>
      if inputMatches cfg lit0 st.input then
        if lit0 = cfg.backSel then
          match st.Up with
          | .error e => .fail { rest := rest, err := some e, st := st }
          | .ok st1 => .next rest .matched st1
        else .next rest .matched (st.Down target)
      else .next rest .pending st
    | _ => .fail { rest := rest, err := some .BadInstruction, st := st }
  else
    match execSimple rs i st with
    | .error e =>
      if e.recoverable then .abort rest e
      else .fail { rest := rest, err := some e, st := st }
    | .ok st1 => .next rest mode st1

/-- Modelled from the spec: fetch and decode the next instruction and execute
it (section 4.6.1). The end of the buffer is a stop with nothing left; a
decoding failure ends the run with the buffer as it is. -/
def fetch (cfg : VmConfig) (rs : Resolver) (b : Bytes) (mode : Mode) (st : VmState) : Step :=
  match b with
  | [] => .stop []
  | _ :: _ =>
    match next b with
    | .error e => .fail { rest := b, err := some e, st := st }
    | .ok (i, rest) => execInstr cfg rs i rest mode st

/-- Modelled from the spec: the entry of the catch dispatch (section 4.6.3):
set the input-invalid flag, resolve the code of `_catch` (`NotFound` surfaces)
and make `_catch` the navigation top. -/
def catchEnter (cfg : VmConfig) (rs : Resolver) (st : VmState) :
    Except (VmError × VmState) (Bytes × VmState) :=
  match st.SetFlag cfg.flagInvalid with
  | .error e => .error (e, st)
  | .ok st1 =>
    match rs.codeFor catchSym with
    | none => .error (.NotFound, st1)
    | some code => .ok (code, st1.replaceTop catchSym)

/-- Modelled from the spec: the fetch-decode-execute loop (section 4.6.1).
`fuel` bounds the number of instructions fetched, the catch code's included;
`none` means the bound was reached. At a stop, when the buffer had INCMP
instructions and none matched, the catch code is run first (section 4.6.3) and
the stop then returns the buffer's own tail. A recoverable error is translated
into the same catch dispatch when `_catch` is resolvable, and surfaces
otherwise (section 7). -/
def runLoop (cfg : VmConfig) (rs : Resolver) :
    Nat → Bytes → Mode → VmState → Option RunResult
  | 0, _, _, _ => none
  | fuel + 1, b, mode, st =>
    match fetch cfg rs b mode st with
    | .fail r => some r
    | .next b1 mode1 st1 => runLoop cfg rs fuel b1 mode1 st1
    | .stop rest =>
      if mode = .pending then
        match catchEnter cfg rs st with
        | .error (e, st1) => some { rest := rest, err := some e, st := st1 }
        | .ok (code, st1) =>
          match runLoop cfg rs fuel code .fresh st1 with
          | none => none
          | some r => some { rest := rest, err := r.err, st := r.st }
      else some { rest := rest, err := none, st := st }
    | .abort rest e =>
      if (rs.codeFor catchSym).isSome then
        match catchEnter cfg rs st with
        | .error (e1, st1) => some { rest := rest, err := some e1, st := st1 }
        | .ok (code, st1) =>
          match runLoop cfg rs fuel code .fresh st1 with
          | none => none
          | some r => some { rest := rest, err := r.err, st := r.st }
      else some { rest := rest, err := some e, st := st }

/-- Modelled from the spec: `run(code, ctx) -> remainder` (section 4.6.1): the
instructions are consumed one after the other until HALT or the end of the
buffer; after HALT the unconsumed tail is returned. No cancellation signal
arrives during the run. -/
def Run (cfg : VmConfig) (rs : Resolver) (fuel : Nat) (code : Bytes) (st : VmState) :
    Option RunResult :=
  runLoop cfg rs fuel code .fresh st

/-- Modelled from the spec: the instruction HALT, which has no arguments. -/
def haltInstr : Instr := { op := HALT, strs := [], arg := [], flags := [] }

/-! ### go/vm/runner_test.go -/

/-- The variable `dynVal` of the tests, at its initial value. -/
def dynVal : Bytes := lit "three"

/-- `TestResource.GetCode`. -/
def TestResource.GetCode (sym : Bytes) : Bytes :=
  let b : Bytes := []
  if sym = lit "_catch" then
    let b := NewLine b MOUT [lit "0", lit "repent"] [] []
    NewLine b HALT [] [] []
  else b

/-- `TestResource.FuncFor` followed by the call of the entry function it
returns (`getOne`, `getTwo`, `getDyn`, `getInput`); `none` is its error. -/
def TestResource.FuncFor (sym : Bytes) (st : VmState) : Option Bytes :=
  if sym = lit "one" then some (lit "one")
  else if sym = lit "two" then some (lit "two")
  else if sym = lit "dyn" then some dynVal
  else if sym = lit "arg" then some st.input
  else none

/-- The resolver the tests hand to `NewVm`: `GetCode` never fails. -/
def TestResource : Resolver :=
  { codeFor := fun sym => some (TestResource.GetCode sym),
    valueOf := TestResource.FuncFor }

/-- Modelled from the spec: the tokens of the surrounding project as section 9
gives them, wildcard `*` and back selector `0`; the empty literal selects the
empty input, and the input-invalid flag is taken to be the first system
flag. -/
def testConfig : VmConfig :=
  { wildcard := lit "*", emptySel := [], backSel := lit "0", flagInvalid := 0 }

/-- Modelled from the spec: `state.NewState(5)` and `cache.NewCache()` of the
tests: an empty navigation stack, the eight system flags and five user flags,
all reset, no input, and an empty cache (with a total budget of 65536 bytes). -/
def newState : VmState :=
  { nav := [], flags := List.replicate 13 false, input := [],
    cache := { frames := [[]], total := 65536 }, menu := [], mapped := [], msize := 0 }

/-- The state of scenario S6 (`TestRunArgInvalid`) when `Run` is called: at the
node `root`, with the input `foo`. -/
def argInvalidState : VmState :=
  { VmState.Down newState (lit "root") with input := lit "foo" }

/-- The instructions before HALT in the buffer of `TestHalt`:
`MOVE "root"; LOAD "one"`. -/
def haltTestHead : List Instr :=
  [ { op := MOVE, strs := [lit "root"], arg := [], flags := [] },
    { op := LOAD, strs := [lit "one"], arg := [], flags := [0] } ]

/-- The instruction after HALT in the buffer of `TestHalt`: `MOVE "foo"`. -/
def haltTestTail : Bytes := NewLine [] MOVE [lit "foo"] [] []

/-- A state whose first user flag (index 8) is set. -/
def flaggedState : VmState := { newState with flags := newState.flags.set 8 true }

/-- The instruction `CATCH "err"` on flag 8, not inverted. -/
def catchErr : Instr := { op := CATCH, strs := [lit "err"], arg := [], flags := [8] }

/-- The state `TestHalt` expects after its run: at the node `root`, with the
value of `one` loaded in the cache frame of that node. -/
def haltTestState : VmState :=
  { VmState.Down newState (lit "root") with
    cache := { frames := [[{ sym := lit "one", val := lit "one", budget := 0 }], []],
               total := 65536 } }

/-- The buffer of `TestRunArgInvalid`: the single instruction
`INCMP "bar" "baz"`. -/
def argInvalidCode : List Instr :=
  [ { op := INCMP, strs := [lit "bar", lit "baz"], arg := [], flags := [] } ]

end vm

/-! # Theorems -/

/-! ## The opcode tables -/

namespace vm

theorem OpcodeString_lookup_some (n : Nat) (s : String) :
    OpcodeString.lookup n = some s ↔ OpcodeIndex.lookup s = some n := by
  constructor
  · intro h
    simp only [OpcodeString, List.lookup_cons, List.lookup_nil] at h
    repeat' split at h
    all_goals first
      | (simp at h; done)
      | (rename_i h1; simp at h1; simp at h; subst h1; subst h; decide)
  · intro h
    simp only [OpcodeIndex, List.lookup_cons, List.lookup_nil] at h
    repeat' split at h
    all_goals first
      | (simp at h; done)
      | (rename_i h1; simp at h1; simp at h; subst h1; subst h; decide)

theorem OpcodeString_defined (n : Nat) : (OpcodeString.lookup n).isSome ↔ n ≤ _MAX := by
  constructor
  · intro h
    simp only [OpcodeString, List.lookup_cons, List.lookup_nil] at h
    repeat' split at h
    all_goals first
      | (simp at h; done)
      | (rename_i h1; simp at h1; subst h1; decide)
  · intro h
    have h2 : n ≤ 10 := h
    interval_cases n <;> decide

/-- C1: each of the eleven opcode constants has the code of its row in the
specification's table (and `_MAX` is 10); `OpcodeString` maps each code to the
row's name and `OpcodeIndex` maps the name back to the code; `OpcodeString` is
defined for exactly the codes 0 to `_MAX`; and `OpcodeIndex` is its inverse: a
code has a name in the one table exactly when the name has that code in the
other. -/
theorem opcode_tables_agree :
    (NOOP = 0 ∧ CATCH = 1 ∧ CROAK = 2 ∧ LOAD = 3 ∧ RELOAD = 4 ∧ MAP = 5 ∧ MOVE = 6 ∧
      HALT = 7 ∧ INCMP = 8 ∧ MSIZE = 9 ∧ MOUT = 10 ∧ _MAX = 10) ∧
    (OpcodeString.lookup 0 = some "NOOP" ∧ OpcodeIndex.lookup "NOOP" = some 0) ∧
    (OpcodeString.lookup 1 = some "CATCH" ∧ OpcodeIndex.lookup "CATCH" = some 1) ∧
    (OpcodeString.lookup 2 = some "CROAK" ∧ OpcodeIndex.lookup "CROAK" = some 2) ∧
    (OpcodeString.lookup 3 = some "LOAD" ∧ OpcodeIndex.lookup "LOAD" = some 3) ∧
    (OpcodeString.lookup 4 = some "RELOAD" ∧ OpcodeIndex.lookup "RELOAD" = some 4) ∧
    (OpcodeString.lookup 5 = some "MAP" ∧ OpcodeIndex.lookup "MAP" = some 5) ∧
    (OpcodeString.lookup 6 = some "MOVE" ∧ OpcodeIndex.lookup "MOVE" = some 6) ∧
    (OpcodeString.lookup 7 = some "HALT" ∧ OpcodeIndex.lookup "HALT" = some 7) ∧
    (OpcodeString.lookup 8 = some "INCMP" ∧ OpcodeIndex.lookup "INCMP" = some 8) ∧
    (OpcodeString.lookup 9 = some "MSIZE" ∧ OpcodeIndex.lookup "MSIZE" = some 9) ∧
    (OpcodeString.lookup 10 = some "MOUT" ∧ OpcodeIndex.lookup "MOUT" = some 10) ∧
    (∀ n : Nat, (OpcodeString.lookup n).isSome ↔ n ≤ _MAX) ∧
    (∀ (n : Nat) (s : String), OpcodeString.lookup n = some s ↔ OpcodeIndex.lookup s = some n) := by
  refine ⟨by decide, by decide, by decide, by decide, by decide, by decide, by decide,
    by decide, by decide, by decide, by decide, by decide, OpcodeString_defined,
    OpcodeString_lookup_some⟩

end vm

/-! ## The not-found error -/

namespace db

theorem hexEncode_length (k : Bytes) : (hexEncode k).length = 2 * k.length := by
  induction k with
  | nil => rfl
  | cons b bs ih => simp [hexEncode, ih]; omega

theorem hexDigit_mem (n : Nat) (h : n < 16) : hexDigit n ∈ lit "0123456789abcdef" := by
  interval_cases n <;> decide

theorem hexValue_hexDigit (n : Nat) (h : n < 16) : hexValue (hexDigit n) = some n := by
  interval_cases n <;> decide

theorem hexEncode_digits (k : Bytes) (hk : ∀ b ∈ k, b < 256) :
    ∀ c ∈ hexEncode k, c ∈ lit "0123456789abcdef" := by
  induction k with
  | nil => intro c hc; simp [hexEncode] at hc
  | cons b bs ih =>
    intro c hc
    have hb : b < 256 := hk b (List.mem_cons_self _ _)
    simp only [hexEncode, List.mem_cons] at hc
    rcases hc with hc | hc | hc
    · subst hc; exact hexDigit_mem _ (by omega)
    · subst hc; exact hexDigit_mem _ (by omega)
    · exact ih (fun x hx => hk x (List.mem_cons_of_mem _ hx)) c hc

theorem hexDecode_hexEncode (k : Bytes) (hk : ∀ b ∈ k, b < 256) :
    hexDecode (hexEncode k) = some k := by
  induction k with
  | nil => rfl
  | cons b bs ih =>
    have hb : b < 256 := hk b (List.mem_cons_self _ _)
    have h1 := hexValue_hexDigit (b / 16) (by omega)
    have h2 := hexValue_hexDigit (b % 16) (by omega)
    have h3 := ih (fun x hx => hk x (List.mem_cons_of_mem _ hx))
    simp only [hexEncode, hexDecode, h1, h2, h3]
    have : b / 16 * 16 + b % 16 = b := by omega
    rw [this]

/-- C7: for every key `k` (a byte slice, the empty one included) the message
of `NewErrNotFound(k)` is exactly `key not found: ` followed by the hexadecimal
encoding of `k`: two digits per byte, each one of `0123456789abcdef`, which
decode back to `k`; so the message has length `15 + 2 * len(k)`. -/
theorem NewErrNotFound_message (k : Bytes) (hk : ∀ b ∈ k, b < 256) :
    (NewErrNotFound k).Error = lit "key not found: " ++ hexEncode k ∧
    (hexEncode k).length = 2 * k.length ∧
    (∀ c ∈ hexEncode k, c ∈ lit "0123456789abcdef") ∧
    hexDecode (hexEncode k) = some k ∧
    (NewErrNotFound k).Error.length = 15 + 2 * k.length := by
  refine ⟨rfl, hexEncode_length k, hexEncode_digits k hk, hexDecode_hexEncode k hk, ?_⟩
  show (notFoundPrefix ++ hexEncode k).length = _
  rw [List.length_append, hexEncode_length]
  rfl

/-- The message for the key `00 ab ff`, and for the empty key. -/
theorem NewErrNotFound_message_witness :
    (∀ b ∈ [0, 171, 255], b < 256) ∧
    (NewErrNotFound [0, 171, 255]).Error = lit "key not found: 00abff" ∧
    (NewErrNotFound []).Error = lit "key not found: " ∧
    (NewErrNotFound [0, 171, 255]).Error.length = 15 + 2 * 3 :=
  ⟨by decide, by decide, (NewErrNotFound_message [] (by simp)).1,
    (NewErrNotFound_message [0, 171, 255] (by decide)).2.2.2.2⟩

theorem hasPrefix_iff (s sub : Bytes) : hasPrefix s sub = true ↔ ∃ post, s = sub ++ post := by
  induction sub generalizing s with
  | nil => cases s <;> simp [hasPrefix]
  | cons b sub ih =>
    cases s with
    | nil => simp [hasPrefix]
    | cons a s =>
      simp only [hasPrefix, Bool.and_eq_true, beq_iff_eq, ih, List.cons_append, List.cons.injEq]
      constructor
      · rintro ⟨h1, post, h2⟩; exact ⟨post, h1, h2⟩
      · rintro ⟨post, h1, h2⟩; exact ⟨h1, post, h2⟩

theorem stringsContains_iff (s sub : Bytes) :
    stringsContains s sub = true ↔ ∃ pre post, s = pre ++ sub ++ post := by
  induction s with
  | nil =>
    simp only [stringsContains, hasPrefix_iff]
    constructor
    · rintro ⟨post, h⟩; exact ⟨[], post, by simpa using h⟩
    · rintro ⟨pre, post, h⟩
      have h1 : pre = [] := by
        cases pre with
        | nil => rfl
        | cons a l => simp at h
      subst h1
      exact ⟨post, by simpa using h⟩
  | cons a s ih =>
    simp only [stringsContains, Bool.or_eq_true, hasPrefix_iff, ih]
    constructor
    · rintro (⟨post, h⟩ | ⟨pre, post, h⟩)
      · exact ⟨[], post, by simpa using h⟩
      · exact ⟨a :: pre, post, by simp [h]⟩
    · rintro ⟨pre, post, h⟩
      cases pre with
      | nil => left; exact ⟨post, by simpa using h⟩
      | cons b pre =>
        right
        simp only [List.cons_append, List.cons.injEq] at h
        exact ⟨pre, post, h.2⟩

/-- C10: `IsNotFound` classifies by the message text only. For every error `e`,
`IsNotFound(e)` is true exactly when `e.Error()` contains the substring
`key not found: `; the receiver of `ErrNotFound.Is` plays no part; an error of
another type whose message contains the substring is classified as not found;
and `IsNotFound(NewErrNotFound(k))` is true for every key `k`. -/
theorem IsNotFound_by_message (e : GoError) :
    (IsNotFound e = true ↔ ∃ pre post, e.Error = pre ++ lit "key not found: " ++ post) ∧
    (∀ recv : ErrNotFound, recv.Is e = IsNotFound e) ∧
    (∀ pre post : Bytes, IsNotFound (.plain (pre ++ lit "key not found: " ++ post)) = true) ∧
    (∀ k : Bytes, IsNotFound (NewErrNotFound k) = true) := by
  refine ⟨stringsContains_iff _ _, fun _ => rfl, ?_, ?_⟩
  · intro pre post
    exact (stringsContains_iff _ _).2 ⟨pre, post, rfl⟩
  · intro k
    exact (stringsContains_iff _ _).2 ⟨[], hexEncode k, rfl⟩

end db

/-! ## The filesystem store -/

namespace db

theorem pathClean_ne_nil (p : Bytes) : pathClean p ≠ [] := by
  unfold pathClean
  split
  · simp
  · simp only []
    split
    · simp
    · split
      · simp
      · assumption

theorem pathJoin_ne_nil (a b : Bytes) (hb : b ≠ []) : pathJoin a b ≠ [] := by
  unfold pathJoin
  by_cases h1 : a = [] ∧ b = []
  · exact absurd h1.2 hb
  · by_cases h2 : a = []
    · simp only [h2, hb, and_false, if_false, if_true]
      exact pathClean_ne_nil _
    · simp only [h2, hb, and_false, false_and, if_false]
      exact pathClean_ne_nil _

/-- What a successful `pathFor` returns. -/
theorem pathFor_ok (fdb : fsDb) (lk : lookupKey) (flk : fsLookupKey) (lk1 : lookupKey)
    (h : pathFor fdb lk = .ok (flk, lk1)) :
    ∃ x xs, lk.Default = x :: xs ∧ lk1.Default = ((x + 0x30) % 256) :: xs ∧
      flk.Default = pathJoin fdb.dir (((x + 0x30) % 256) :: xs) ∧
      ((lk.Translation = none ∧ lk1.Translation = none ∧ flk.Translation = []) ∨
        ∃ y ys, lk.Translation = some (y :: ys) ∧
          lk1.Translation = some (((y + 0x30) % 256) :: ys) ∧
          flk.Translation = pathJoin fdb.dir (((y + 0x30) % 256) :: ys)) := by
  obtain ⟨d, t⟩ := lk
  cases d with
  | nil => simp [pathFor, addFirst] at h
  | cons x xs =>
    cases t with
    | none =>
      simp only [pathFor, addFirst, Except.ok.injEq, Prod.mk.injEq] at h
      obtain ⟨h1, h2⟩ := h
      subst h1; subst h2
      exact ⟨x, xs, rfl, rfl, rfl, Or.inl ⟨rfl, rfl, rfl⟩⟩
    | some t =>
      cases t with
      | nil => simp [pathFor, addFirst] at h
      | cons y ys =>
        simp only [pathFor, addFirst, Except.ok.injEq, Prod.mk.injEq] at h
        obtain ⟨h1, h2⟩ := h
        subst h1; subst h2
        exact ⟨x, xs, rfl, rfl, rfl, Or.inr ⟨y, ys, rfl, rfl, rfl⟩⟩

theorem pathFor_default_ne_nil (fdb : fsDb) (lk : lookupKey) (flk : fsLookupKey)
    (lk1 : lookupKey) (h : pathFor fdb lk = .ok (flk, lk1)) : flk.Default ≠ [] := by
  obtain ⟨x, xs, _, _, h3, _⟩ := pathFor_ok fdb lk flk lk1 h
  rw [h3]
  exact pathJoin_ne_nil _ _ (by simp)

/-- After a successful `pathFor`, `altPathFor` does not panic, and it has a
translation path exactly when `pathFor` has one. -/
theorem altPathFor_after_pathFor (fdb : fsDb) (lk : lookupKey) (flk : fsLookupKey)
    (lk1 : lookupKey) (h : pathFor fdb lk = .ok (flk, lk1)) :
    ∃ flka, altPathFor fdb lk1 = .ok flka ∧ (flk.Translation = [] → flka.Translation = []) := by
  obtain ⟨x, xs, _, h2, _, h4⟩ := pathFor_ok fdb lk flk lk1 h
  obtain ⟨d1, t1⟩ := lk1
  simp only at h2
  subst h2
  rcases h4 with ⟨_, h5, h6⟩ | ⟨y, ys, _, h5, h6⟩
  · simp only at h5
    subst h5
    by_cases hb : fdb.base.pfx = fdb.base.DATATYPE_BIN
    · refine ⟨{ Default := pathJoin fdb.dir (xs ++ lit ".bin"), Translation := [] }, ?_,
        fun _ => rfl⟩
      simp only [altPathFor, altName, dropFirst, hb, if_true]
    · refine ⟨{ Default := pathJoin fdb.dir xs, Translation := [] }, ?_, fun _ => rfl⟩
      simp only [altPathFor, altName, dropFirst, hb, if_false]
  · simp only at h5
    subst h5
    have hne : flk.Translation ≠ [] := by
      rw [h6]; exact pathJoin_ne_nil _ _ (by simp)
    by_cases hb : fdb.base.pfx = fdb.base.DATATYPE_BIN
    · refine ⟨{ Default := pathJoin fdb.dir (xs ++ lit ".bin"),
                Translation := pathJoin fdb.dir (ys ++ lit ".bin") }, ?_,
        fun h7 => absurd h7 hne⟩
      simp only [altPathFor, altName, dropFirst, hb, if_true]
    · refine ⟨{ Default := pathJoin fdb.dir xs, Translation := pathJoin fdb.dir ys }, ?_,
        fun h7 => absurd h7 hne⟩
      simp only [altPathFor, altName, dropFirst, hb, if_false]

theorem opensNotExist_of_absent (fs : FS) (p : Bytes) (h : fs p = .absent) :
    opensNotExist fs p :=
  ⟨.pathError (lit "open") p .ENOENT, by simp [osOpen, h], rfl⟩

theorem openFirst_skip (fs : FS) (pre rest : List Bytes)
    (hpre : ∀ q ∈ pre, q = [] ∨ opensNotExist fs q) :
    openFirst fs (pre ++ rest) = openFirst fs rest := by
  induction pre with
  | nil => rfl
  | cons q pre ih =>
    have ih1 := ih (fun x hx => hpre x (List.mem_cons_of_mem _ hx))
    rcases hpre q (List.mem_cons_self _ _) with hq | ⟨err, h1, h2⟩
    · simp [openFirst, hq, ih1]
    · by_cases hq : q = []
      · simp [openFirst, hq, ih1]
      · simp [openFirst, hq, h1, h2, ih1]

theorem openFirst_none_iff (fs : FS) (cs : List Bytes) :
    openFirst fs cs = .ok none ↔ ∀ p ∈ cs, p ≠ [] → opensNotExist fs p := by
  induction cs with
  | nil => simp [openFirst]
  | cons q cs ih =>
    by_cases hq : q = []
    · simp [openFirst, hq, ih]
    · simp only [openFirst, hq, if_false, List.mem_cons, forall_eq_or_imp, ne_eq,
        not_false_eq_true, true_implies]
      cases ho : osOpen fs q with
      | ok f =>
        simp only [opensNotExist, ho]
        constructor
        · intro h; cases h
        · rintro ⟨⟨err, h1, _⟩, _⟩; cases h1
      | error err =>
        by_cases he : isNotExist err = true
        · simp only [he, if_true, ih]
          constructor
          · intro h; exact ⟨⟨err, ho, he⟩, h⟩
          · intro h; exact h.2
        · simp only [he]
          constructor
          · intro h; simp at h
          · rintro ⟨⟨err1, h1, h2⟩, _⟩
            rw [ho] at h1
            cases h1
            exact absurd h2 he

theorem openFirst_error (fs : FS) (cs : List Bytes) (err : GoError)
    (h : openFirst fs cs = .error err) :
    ∃ p ∈ cs, p ≠ [] ∧ osOpen fs p = .error err ∧ isNotExist err = false := by
  induction cs with
  | nil => simp [openFirst] at h
  | cons q cs ih =>
    by_cases hq : q = []
    · simp only [openFirst, hq, if_true] at h
      obtain ⟨p, hp, h1⟩ := ih h
      exact ⟨p, List.mem_cons_of_mem _ hp, h1⟩
    · simp only [openFirst, hq, if_false] at h
      cases ho : osOpen fs q with
      | ok f => rw [ho] at h; cases h
      | error err1 =>
        rw [ho] at h
        by_cases he : isNotExist err1 = true
        · simp only [he, if_true] at h
          obtain ⟨p, hp, h1⟩ := ih h
          exact ⟨p, List.mem_cons_of_mem _ hp, h1⟩
        · simp only [he] at h
          simp only [Bool.false_eq_true, if_false, Except.error.injEq] at h
          subst h
          exact ⟨q, List.mem_cons_self _ _, hq, ho, by simpa using he⟩

theorem osOpen_error_ne_notFound (fs : FS) (p : Bytes) (err : GoError)
    (h : osOpen fs p = .error err) : ∀ e : ErrNotFound, err ≠ .notFound e := by
  intro e he
  subst he
  unfold osOpen at h
  split at h <;> cases h

/-- `Get` once `ToKey`, `pathFor` and `altPathFor` have given their values. -/
theorem Get_eq (fdb : fsDb) (fs : FS) (key : Bytes) (lk lk1 : lookupKey)
    (flk flka : fsLookupKey) (hk : fdb.base.ToKey key = .ok lk)
    (hp : pathFor fdb lk = .ok (flk, lk1)) (ha : altPathFor fdb lk1 = .ok flka) :
    Get fdb fs key =
      match openFirst fs (candidatePaths flk flka) with
      | .error err => .error (.error err)
      | .ok none => .error (.error (NewErrNotFound key))
      | .ok (some f) =>
        match readAll f with
        | .error err => .error (.error err)
        | .ok b => .ok b := by
  simp only [Get, hk, hp, ha]

theorem Get_of_first (fdb : fsDb) (fs : FS) (key : Bytes) (lk lk1 : lookupKey)
    (flk flka : fsLookupKey) (hk : fdb.base.ToKey key = .ok lk)
    (hp : pathFor fdb lk = .ok (flk, lk1)) (ha : altPathFor fdb lk1 = .ok flka)
    (pre : List Bytes) (p : Bytes) (post : List Bytes) (b : Bytes)
    (hc : candidatePaths flk flka = pre ++ p :: post)
    (hpre : ∀ q ∈ pre, q = [] ∨ opensNotExist fs q) (hne : p ≠ [])
    (hfile : fs p = .file b) : Get fdb fs key = .ok b := by
  rw [Get_eq fdb fs key lk lk1 flk flka hk hp ha, hc, openFirst_skip fs pre _ hpre]
  simp [openFirst, hne, osOpen, hfile, readAll]

theorem writeFile_ok (fs fs1 : FS) (p val : Bytes) (h : writeFile fs p val = .ok fs1) :
    fs1 = fun q => if q = p then .file val else fs q := by
  unfold writeFile at h
  split at h
  · cases h
  · cases h
  · cases h; rfl
  · split at h
    · cases h; rfl
    · cases h
    · cases h
    · cases h

/-- What a successful `Put` has done: `ToKey` and `pathFor` gave their values,
and the file system is the old one with `val` written at the default path and,
when there is a translation path, at the translation path. -/
theorem Put_ok (fdb : fsDb) (fs fs1 : FS) (key val : Bytes)
    (h : Put fdb fs key val = .ok fs1) :
    ∃ lk flk lk1, fdb.base.ToKey key = .ok lk ∧ pathFor fdb lk = .ok (flk, lk1) ∧
      fs1 = fun q =>
        if q = flk.Default then .file val
        else if flk.Translation ≠ [] ∧ q = flk.Translation then .file val
        else fs q := by
  unfold Put at h
  split at h
  · cases h
  · split at h
    · cases h
    · rename_i lk hk
      split at h
      · cases h
      · rename_i flk lk1 hp
        refine ⟨lk, flk, lk1, hk, hp, ?_⟩
        split at h
        · rename_i ht
          split at h
          · cases h
          · rename_i fsa hw1
            split at h
            · cases h
            · rename_i fsb hw2
              injection h with h
              rw [← h, writeFile_ok _ _ _ _ hw2, writeFile_ok _ _ _ _ hw1]
              funext q
              simp only [ht, ne_eq, not_false_eq_true, true_and]
        · rename_i ht
          have ht1 : flk.Translation = [] := by simpa using ht
          split at h
          · cases h
          · rename_i fsb hw2
            injection h with h
            rw [← h, writeFile_ok _ _ _ _ hw2]
            funext q
            simp only [ht1, ne_eq, not_true_eq_false, false_and, if_false]

/-- C5: `Get` returns the content of the first existing file among its
candidate paths, taken in the order translation path, legacy translation path,
default path, legacy default path: when every candidate before `p` is empty
(skipped) or does not exist and `p` names a file with content `b`, `Get`
returns `b`. Hence a file at the translation path is returned whatever the
default paths name, and, when there is none at the translation path, so is a
file at the legacy translation path. -/
theorem Get_first_existing (fdb : fsDb) (fs : FS) (key : Bytes) (lk lk1 : lookupKey)
    (flk flka : fsLookupKey) (hk : fdb.base.ToKey key = .ok lk)
    (hp : pathFor fdb lk = .ok (flk, lk1)) (ha : altPathFor fdb lk1 = .ok flka) :
    candidatePaths flk flka =
      [flk.Translation, flka.Translation, flk.Default, flka.Default] ∧
    (∀ (pre : List Bytes) (p : Bytes) (post : List Bytes) (b : Bytes),
      candidatePaths flk flka = pre ++ p :: post →
      (∀ q ∈ pre, q = [] ∨ fs q = .absent) → p ≠ [] → fs p = .file b →
      Get fdb fs key = .ok b) ∧
    (∀ b : Bytes, flk.Translation ≠ [] → fs flk.Translation = .file b →
      Get fdb fs key = .ok b) ∧
    (∀ b : Bytes, (flk.Translation = [] ∨ fs flk.Translation = .absent) →
      flka.Translation ≠ [] → fs flka.Translation = .file b → Get fdb fs key = .ok b) := by
  have hgen : ∀ (pre : List Bytes) (p : Bytes) (post : List Bytes) (b : Bytes),
      candidatePaths flk flka = pre ++ p :: post →
      (∀ q ∈ pre, q = [] ∨ fs q = .absent) → p ≠ [] → fs p = .file b →
      Get fdb fs key = .ok b := by
    intro pre p post b hc hpre hne hfile
    refine Get_of_first fdb fs key lk lk1 flk flka hk hp ha pre p post b hc ?_ hne hfile
    intro q hq
    rcases hpre q hq with h | h
    · exact Or.inl h
    · exact Or.inr (opensNotExist_of_absent fs q h)
  refine ⟨rfl, hgen, ?_, ?_⟩
  · intro b hne hfile
    exact hgen [] flk.Translation _ b rfl (by simp) hne hfile
  · intro b h1 hne hfile
    refine hgen [flk.Translation] flka.Translation _ b rfl ?_ hne hfile
    intro q hq
    simp only [List.mem_singleton] at hq
    subst hq
    exact h1

/-- C6, as amended: `Get` returns the not-found error, carrying the key as the
caller passed it, exactly when every non-empty candidate path fails to open
with a does-not-exist error, and it returns no other `ErrNotFound`; when the
first candidate that does not fail with does-not-exist is a readable file,
`Get` returns its bytes (and no error); and when the first candidate that does
not fail with does-not-exist fails to open in another way, `Get` returns that
error, which is not an `ErrNotFound`. -/
theorem Get_notFound_iff (fdb : fsDb) (fs : FS) (key : Bytes) (lk lk1 : lookupKey)
    (flk flka : fsLookupKey) (hk : fdb.base.ToKey key = .ok lk)
    (hp : pathFor fdb lk = .ok (flk, lk1)) (ha : altPathFor fdb lk1 = .ok flka) :
    (Get fdb fs key = .error (.error (NewErrNotFound key)) ↔
      ∀ p ∈ candidatePaths flk flka, p ≠ [] → opensNotExist fs p) ∧
    (∀ e : ErrNotFound, Get fdb fs key = .error (.error (.notFound e)) → e.k = key) ∧
    (∀ (pre : List Bytes) (p : Bytes) (post : List Bytes) (b : Bytes),
      candidatePaths flk flka = pre ++ p :: post →
      (∀ q ∈ pre, q = [] ∨ opensNotExist fs q) → p ≠ [] → fs p = .file b →
      Get fdb fs key = .ok b) ∧
    (∀ (pre : List Bytes) (p : Bytes) (post : List Bytes) (err : GoError),
      candidatePaths flk flka = pre ++ p :: post →
      (∀ q ∈ pre, q = [] ∨ opensNotExist fs q) → p ≠ [] →
      osOpen fs p = .error err → isNotExist err = false →
      Get fdb fs key = .error (.error err) ∧ ∀ e : ErrNotFound, err ≠ .notFound e) := by
  have hget := Get_eq fdb fs key lk lk1 flk flka hk hp ha
  have hcases : ∀ e : ErrNotFound, Get fdb fs key = .error (.error (.notFound e)) →
      openFirst fs (candidatePaths flk flka) = .ok none ∧ e.k = key := by
    intro e h
    rw [hget] at h
    cases ho : openFirst fs (candidatePaths flk flka) with
    | error err =>
      rw [ho] at h
      simp only [Except.error.injEq, Fail.error.injEq] at h
      obtain ⟨p, _, _, h1, _⟩ := openFirst_error fs _ err ho
      exact absurd h (osOpen_error_ne_notFound fs p err h1 e)
    | ok f =>
      rw [ho] at h
      cases f with
      | none =>
        simp only [NewErrNotFound, Except.error.injEq, Fail.error.injEq,
          GoError.notFound.injEq] at h
        exact ⟨rfl, by rw [← h]⟩
      | some f =>
        simp only at h
        cases hr : readAll f with
        | ok b => rw [hr] at h; cases h
        | error err =>
          rw [hr] at h
          simp only [Except.error.injEq, Fail.error.injEq] at h
          subst h
          unfold readAll at hr
          split at hr <;> cases hr
  refine ⟨⟨?_, ?_⟩, fun e h => (hcases e h).2, ?_, ?_⟩
  · intro h
    exact (openFirst_none_iff fs _).1 (hcases _ h).1
  · intro h
    rw [hget, (openFirst_none_iff fs _).2 h]
  · intro pre p post b hc hpre hne hfile
    exact Get_of_first fdb fs key lk lk1 flk flka hk hp ha pre p post b hc hpre hne hfile
  · intro pre p post err hc hpre hne ho he
    refine ⟨?_, osOpen_error_ne_notFound fs p err ho⟩
    rw [hget, hc, openFirst_skip fs pre _ hpre]
    simp [openFirst, hne, ho, he]

/-- C9: on a file system that is a map from paths to what they name, when
`Put(key, val)` succeeds, a following `Get(key)` on the same store (same
prefix, session and language settings, which `ToKey` reads) returns exactly
`val` and no error, whether or not the key has a translation form. `Put` has
written `val` at the default path and, when the key has a translation form,
at the translation path too, and has changed no other path; and the first
non-empty candidate of `Get` is one of the paths written: the translation path
when there is one, the default path otherwise. -/
theorem Put_Get_roundtrip (fdb : fsDb) (fs fs1 : FS) (key val : Bytes)
    (h : Put fdb fs key val = .ok fs1) :
    Get fdb fs1 key = .ok val ∧
    ∃ lk flk lk1 flka, fdb.base.ToKey key = .ok lk ∧ pathFor fdb lk = .ok (flk, lk1) ∧
      altPathFor fdb lk1 = .ok flka ∧
      flk.Default ≠ [] ∧ fs1 flk.Default = .file val ∧
      (lk.Translation ≠ none → flk.Translation ≠ [] ∧ fs1 flk.Translation = .file val) ∧
      (lk.Translation = none → flk.Translation = [] ∧ flka.Translation = []) ∧
      (∀ q, q ≠ flk.Default → q ≠ flk.Translation → fs1 q = fs q) ∧
      (candidatePaths flk flka).find? (fun p => decide (p ≠ [])) =
        some (if flk.Translation ≠ [] then flk.Translation else flk.Default) := by
  obtain ⟨lk, flk, lk1, hk, hp, hfs⟩ := Put_ok fdb fs fs1 key val h
  obtain ⟨flka, ha, hta⟩ := altPathFor_after_pathFor fdb lk flk lk1 hp
  have hd := pathFor_default_ne_nil fdb lk flk lk1 hp
  have hD : fs1 flk.Default = .file val := by rw [hfs]; simp
  have hT : flk.Translation ≠ [] → fs1 flk.Translation = .file val := by
    intro ht
    rw [hfs]
    by_cases hx : flk.Translation = flk.Default <;> simp [hx, ht]
  have hshape : (lk.Translation = none ∧ flk.Translation = []) ∨
      (lk.Translation ≠ none ∧ flk.Translation ≠ []) := by
    obtain ⟨x, xs, _, _, _, h4⟩ := pathFor_ok fdb lk flk lk1 hp
    rcases h4 with ⟨h5, _, h6⟩ | ⟨y, ys, h5, _, h6⟩
    · exact Or.inl ⟨h5, h6⟩
    · refine Or.inr ⟨by rw [h5]; simp, ?_⟩
      rw [h6]
      exact pathJoin_ne_nil _ _ (by simp)
  have hget : Get fdb fs1 key = .ok val := by
    by_cases ht : flk.Translation = []
    · refine Get_of_first fdb fs1 key lk lk1 flk flka hk hp ha
        [flk.Translation, flka.Translation] flk.Default _ val rfl ?_ hd hD
      intro q hq
      simp only [List.mem_cons, List.mem_singleton, List.not_mem_nil, or_false] at hq
      rcases hq with hq | hq
      · exact Or.inl (hq.trans ht)
      · exact Or.inl (hq.trans (hta ht))
    · exact Get_of_first fdb fs1 key lk lk1 flk flka hk hp ha [] flk.Translation _ val
        rfl (by simp) ht (hT ht)
  refine ⟨hget, lk, flk, lk1, flka, hk, hp, ha, hd, hD, ?_, ?_, ?_, ?_⟩
  · intro hne
    rcases hshape with ⟨h5, _⟩ | ⟨_, h6⟩
    · exact absurd h5 hne
    · exact ⟨h6, hT h6⟩
  · intro hnone
    rcases hshape with ⟨_, h6⟩ | ⟨h5, _⟩
    · exact ⟨h6, hta h6⟩
    · exact absurd hnone h5
  · intro q hq1 hq2
    rw [hfs]
    simp [hq1, hq2]
  · by_cases ht : flk.Translation = []
    · simp [candidatePaths, List.find?, ht, hta ht, hd]
    · simp [candidatePaths, List.find?, ht]

/-- With the language `nor` set, the template `foo` is read from its translated file although its default file exists as well. -/
theorem Get_first_existing_witness :
    exampleDb.base.ToKey (lit "foo") =
      .ok { Default := 4 :: lit "foo", Translation := some (4 :: lit "foo_nor") } ∧
    pathFor exampleDb { Default := 4 :: lit "foo", Translation := some (4 :: lit "foo_nor") } =
      .ok ({ Default := lit "/srv/vise/4foo", Translation := lit "/srv/vise/4foo_nor" },
           { Default := lit "4foo", Translation := some (lit "4foo_nor") }) ∧
    altPathFor exampleDb { Default := lit "4foo", Translation := some (lit "4foo_nor") } =
      .ok { Default := lit "/srv/vise/foo", Translation := lit "/srv/vise/foo_nor" } ∧
    exampleFs (lit "/srv/vise/4foo_nor") = .file (lit "hei") ∧
    exampleFs (lit "/srv/vise/4foo") = .file (lit "hello") ∧
    Get exampleDb exampleFs (lit "foo") = .ok (lit "hei") :=
  ⟨rfl, rfl, rfl, rfl, rfl,
    (Get_first_existing exampleDb exampleFs (lit "foo")
      { Default := 4 :: lit "foo", Translation := some (4 :: lit "foo_nor") }
      { Default := lit "4foo", Translation := some (lit "4foo_nor") }
      { Default := lit "/srv/vise/4foo", Translation := lit "/srv/vise/4foo_nor" }
      { Default := lit "/srv/vise/foo", Translation := lit "/srv/vise/foo_nor" }
      rfl rfl rfl).2.2.1 (lit "hei") (by decide) rfl⟩

/-- For the key `bar` the first three candidates do not exist and the legacy file may not be opened: `Get` returns the permission error, not a not-found error. -/
theorem Get_notFound_iff_witness :
    exampleDb.base.ToKey (lit "bar") =
      .ok { Default := 4 :: lit "bar", Translation := some (4 :: lit "bar_nor") } ∧
    pathFor exampleDb { Default := 4 :: lit "bar", Translation := some (4 :: lit "bar_nor") } =
      .ok ({ Default := lit "/srv/vise/4bar", Translation := lit "/srv/vise/4bar_nor" },
           { Default := lit "4bar", Translation := some (lit "4bar_nor") }) ∧
    altPathFor exampleDb { Default := lit "4bar", Translation := some (lit "4bar_nor") } =
      .ok { Default := lit "/srv/vise/bar", Translation := lit "/srv/vise/bar_nor" } ∧
    osOpen exampleFs (lit "/srv/vise/bar") =
      .error (.pathError (lit "open") (lit "/srv/vise/bar") .EACCES) ∧
    Get exampleDb exampleFs (lit "bar") =
      .error (.error (.pathError (lit "open") (lit "/srv/vise/bar") .EACCES)) :=
  ⟨rfl, rfl, rfl, rfl,
    ((Get_notFound_iff exampleDb exampleFs (lit "bar")
      { Default := 4 :: lit "bar", Translation := some (4 :: lit "bar_nor") }
      { Default := lit "4bar", Translation := some (lit "4bar_nor") }
      { Default := lit "/srv/vise/4bar", Translation := lit "/srv/vise/4bar_nor" }
      { Default := lit "/srv/vise/bar", Translation := lit "/srv/vise/bar_nor" }
      rfl rfl rfl).2.2.2
      [lit "/srv/vise/4bar_nor", lit "/srv/vise/bar_nor", lit "/srv/vise/4bar"]
      (lit "/srv/vise/bar") [] (.pathError (lit "open") (lit "/srv/vise/bar") .EACCES) rfl
      (by
        intro q hq
        simp only [List.mem_cons, List.mem_singleton, List.not_mem_nil, or_false] at hq
        rcases hq with hq | hq | hq <;> subst hq <;>
          exact Or.inr (opensNotExist_of_absent _ _ rfl))
      (by decide) rfl rfl).1⟩

/-- A value put for `foo` (with a translation form) is written at both paths
and read back; a value put for `baz` (without one) is written at the default
path and read back. -/
theorem Put_Get_roundtrip_witness :
    (∃ fs1, Put exampleDb exampleFs (lit "foo") (lit "ny") = .ok fs1 ∧
      fs1 (lit "/srv/vise/4foo_nor") = .file (lit "ny") ∧
      fs1 (lit "/srv/vise/4foo") = .file (lit "ny") ∧
      Get exampleDb fs1 (lit "foo") = .ok (lit "ny")) ∧
    (∃ fs1, Put exampleDbPlain exampleFs (lit "baz") (lit "ny") = .ok fs1 ∧
      fs1 (lit "/srv/vise/4baz") = .file (lit "ny") ∧
      Get exampleDbPlain fs1 (lit "baz") = .ok (lit "ny")) :=
  ⟨⟨_, rfl, rfl, rfl,
      (Put_Get_roundtrip exampleDb exampleFs _ (lit "foo") (lit "ny") rfl).1⟩,
    ⟨_, rfl, rfl,
      (Put_Get_roundtrip exampleDbPlain exampleFs _ (lit "baz") (lit "ny") rfl).1⟩⟩

/-- C6, as stated, fails: for the key `foo` the default path
`/srv/vise/4foo` is a candidate that exists and is readable, yet `Get` does
not return its bytes: the translation path, which comes first, fails to open
with a permission error, and `Get` returns that error. -/
theorem Get_readable_candidate_passed_over :
    exampleDb.base.ToKey (lit "foo") =
      .ok { Default := 4 :: lit "foo", Translation := some (4 :: lit "foo_nor") } ∧
    pathFor exampleDb { Default := 4 :: lit "foo", Translation := some (4 :: lit "foo_nor") } =
      .ok ({ Default := lit "/srv/vise/4foo", Translation := lit "/srv/vise/4foo_nor" },
           { Default := lit "4foo", Translation := some (lit "4foo_nor") }) ∧
    altPathFor exampleDb { Default := lit "4foo", Translation := some (lit "4foo_nor") } =
      .ok { Default := lit "/srv/vise/foo", Translation := lit "/srv/vise/foo_nor" } ∧
    lit "/srv/vise/4foo" ∈
      candidatePaths { Default := lit "/srv/vise/4foo", Translation := lit "/srv/vise/4foo_nor" }
        { Default := lit "/srv/vise/foo", Translation := lit "/srv/vise/foo_nor" } ∧
    osOpen exampleFsDenied (lit "/srv/vise/4foo") =
      .ok { path := lit "/srv/vise/4foo", node := .file (lit "hello") } ∧
    readAll { path := lit "/srv/vise/4foo", node := .file (lit "hello") } = .ok (lit "hello") ∧
    Get exampleDb exampleFsDenied (lit "foo") =
      .error (.error (.pathError (lit "open") (lit "/srv/vise/4foo_nor") .EACCES)) ∧
    Get exampleDb exampleFsDenied (lit "foo") ≠ .ok (lit "hello") :=
  ⟨rfl, rfl, rfl, by decide, rfl, rfl, rfl, by
    intro h
    have h2 : Get exampleDb exampleFsDenied (lit "foo") =
        .error (.error (.pathError (lit "open") (lit "/srv/vise/4foo_nor") .EACCES)) := rfl
    rw [h2] at h
    cases h⟩

/-- C8, the code at a failing input: for the base directory `/srv/vise`, the
data-type prefix 4 and the key `/../../../etc/passwd`, the default path of
`pathFor` and of `altPathFor` is `/etc/passwd`, which does not lie beneath the
base directory; and for the empty key the default path of `altPathFor` is the
base directory itself. -/
theorem pathFor_leaves_base :
    exampleDbPlain.dir = lit "/srv/vise" ∧
    exampleDbPlain.base.ToKey (lit "/../../../etc/passwd") =
      .ok { Default := 4 :: lit "/../../../etc/passwd", Translation := none } ∧
    pathFor exampleDbPlain { Default := 4 :: lit "/../../../etc/passwd", Translation := none } =
      .ok ({ Default := lit "/etc/passwd", Translation := [] },
           { Default := lit "4/../../../etc/passwd", Translation := none }) ∧
    altPathFor exampleDbPlain
        { Default := lit "4/../../../etc/passwd", Translation := none } =
      .ok { Default := lit "/etc/passwd", Translation := [] } ∧
    liesBeneath (lit "/srv/vise") (lit "/etc/passwd") = false ∧
    altPathFor exampleDbPlain { Default := [52], Translation := none } =
      .ok { Default := lit "/srv/vise", Translation := [] } ∧
    liesBeneath (lit "/srv/vise") (lit "/srv/vise") = false :=
  ⟨rfl, rfl, rfl, rfl, rfl, rfl, rfl⟩

end db

/-! ## The VM runner -/

namespace vm

theorem takeBytes_append (s rest : Bytes) : takeBytes s.length (s ++ rest) = .ok (s, rest) := by
  simp [takeBytes]

theorem readPrefixed_append (s rest : Bytes) (h : s.length < 256) :
    readPrefixed ((s.length % 256) :: s ++ rest) = .ok (s, rest) := by
  simp only [List.cons_append, readPrefixed, Nat.mod_eq_of_lt h]
  exact takeBytes_append s rest

theorem readStrings_append (strs : List Bytes) (rest : Bytes)
    (h : ∀ s ∈ strs, s.length < 256) :
    readStrings strs.length ((strs.map (fun s => (s.length % 256) :: s)).flatten ++ rest) =
      .ok (strs, rest) := by
  induction strs with
  | nil => rfl
  | cons s strs ih =>
    have h1 : s.length < 256 := h s (List.mem_cons_self _ _)
    have h2 := ih (fun x hx => h x (List.mem_cons_of_mem _ hx))
    simp only [List.map_cons, List.flatten_cons, List.length_cons, readStrings, List.append_assoc]
    rw [readPrefixed_append s _ h1]
    simp only [h2]

/-- Decoding undoes encoding: the reader gives back an instruction that fits
the encoding and has a known opcode, and the bytes after it. -/
theorem next_encode (i : Instr) (rest : Bytes) (hf : i.fits) (hop : i.op ≤ _MAX) :
    next (i.encode ++ rest) = .ok (i, rest) := by
  obtain ⟨op, strs, arg, flags⟩ := i
  obtain ⟨h1, h2, h3, h4, h5⟩ := hf
  simp only at h1 h2 h3 h4 h5 hop
  have hop1 : op ≤ 10 := hop
  have e1 : op / 256 % 256 = 0 := by omega
  have e2 : op % 256 = op := by omega
  have e3 : ¬ (_MAX < 0 * 256 + op) := by
    show ¬ (10 < 0 * 256 + op)
    omega
  simp only [Instr.encode, NewLine, encodeStrings, e1, e2, List.nil_append, List.cons_append,
    List.append_assoc, next, e3, if_false, Nat.mod_eq_of_lt h2]
  rw [readStrings_append strs _ h3]
  simp only
  have ha := readPrefixed_append arg ((flags.length % 256) :: (flags ++ rest)) h4
  simp only [List.cons_append] at ha
  rw [ha]
  simp only
  have hb := readPrefixed_append flags rest h5
  simp only [List.cons_append] at hb
  rw [hb]
  simp

theorem encode_ne_nil (i : Instr) (rest : Bytes) : i.encode ++ rest ≠ [] := by
  simp [Instr.encode, NewLine]

theorem fetch_encode (cfg : VmConfig) (rs : Resolver) (i : Instr) (rest : Bytes) (mode : Mode)
    (st : VmState) (hf : i.fits) (hop : i.op ≤ _MAX) :
    fetch cfg rs (i.encode ++ rest) mode st = execInstr cfg rs i rest mode st := by
  have hne := encode_ne_nil i rest
  unfold fetch
  split
  · rename_i h; exact absurd h hne
  · rw [next_encode i rest hf hop]

theorem runLoop_succ (cfg : VmConfig) (rs : Resolver) (fuel : Nat) (b : Bytes) (mode : Mode)
    (st : VmState) :
    runLoop cfg rs (fuel + 1) b mode st =
      match fetch cfg rs b mode st with
      | .fail r => some r
      | .next b1 mode1 st1 => runLoop cfg rs fuel b1 mode1 st1
      | .stop rest =>
        if mode = .pending then
          match catchEnter cfg rs st with
          | .error (e, st1) => some { rest := rest, err := some e, st := st1 }
          | .ok (code, st1) =>
            match runLoop cfg rs fuel code .fresh st1 with
            | none => none
            | some r => some { rest := rest, err := r.err, st := r.st }
        else some { rest := rest, err := none, st := st }
      | .abort rest e =>
        if (rs.codeFor catchSym).isSome then
          match catchEnter cfg rs st with
          | .error (e1, st1) => some { rest := rest, err := some e1, st := st1 }
          | .ok (code, st1) =>
            match runLoop cfg rs fuel code .fresh st1 with
            | none => none
            | some r => some { rest := rest, err := r.err, st := r.st }
        else some { rest := rest, err := some e, st := st } := rfl

/-- C4: for every code buffer whose first two bytes, read as a big-endian
16-bit number, give an opcode greater than `_MAX`, `Run` (with fuel for at
least one instruction) fails with the error `BadInstruction`, and it executes
no instruction: the state is the one it started from and the buffer is
returned as it is. -/
theorem Run_unknown_opcode (cfg : VmConfig) (rs : Resolver) (fuel : Nat) (hi lo : Nat)
    (tail : Bytes) (st : VmState) (h : _MAX < hi * 256 + lo) :
    Run cfg rs (fuel + 1) (hi :: lo :: tail) st =
      some { rest := hi :: lo :: tail, err := some .BadInstruction, st := st } := by
  simp only [Run, runLoop, fetch, next, h, if_true]

/-- The buffer `01 02` of `TestRun`: opcode 258. -/
theorem Run_unknown_opcode_witness :
    _MAX < 1 * 256 + 2 ∧
    Run testConfig TestResource 1 [1, 2] newState =
      some { rest := [1, 2], err := some .BadInstruction, st := newState } :=
  ⟨by decide, Run_unknown_opcode testConfig TestResource 0 1 2 [] newState (by decide)⟩

/-- An INCMP whose literal neither equals the input nor is the wildcard, on a
non-empty input, matches nothing: the run goes on with the next instruction,
and the buffer now has an INCMP that did not match. -/
theorem execInstr_incmp_no_match (cfg : VmConfig) (rs : Resolver) (i : Instr) (rest : Bytes)
    (mode : Mode) (st : VmState) (hmode : mode ≠ .matched) (hin : st.input ≠ [])
    (hop : i.op = INCMP)
    (hs : ∃ m t more, i.strs = m :: t :: more ∧ m ≠ st.input ∧ m ≠ cfg.wildcard) :
    execInstr cfg rs i rest mode st = .next rest .pending st := by
  obtain ⟨m, t, more, h1, h2, h3⟩ := hs
  have hm : inputMatches cfg m st.input = false := by
    simp only [inputMatches, Bool.or_eq_false_iff, Bool.and_eq_false_iff, beq_eq_false_iff_ne,
      ne_eq, bne_eq_false_iff_eq]
    exact ⟨⟨fun h => h2 h.symm, Or.inl h3⟩, Or.inr hin⟩
  have c1 : ¬ (INCMP = HALT) := by decide
  have c2 : ¬ (INCMP = CATCH) := by decide
  have c3 : ¬ (INCMP = CROAK) := by decide
  simp only [execInstr, hop, c1, c2, c3, hmode, h1, hm, if_false, if_true, Bool.false_eq_true]

theorem runLoop_incmp_no_match (cfg : VmConfig) (rs : Resolver) (P : List Instr) (st : VmState)
    (hin : st.input ≠ [])
    (hall : ∀ i ∈ P, i.op = INCMP ∧ i.fits ∧
      ∃ m t more, i.strs = m :: t :: more ∧ m ≠ st.input ∧ m ≠ cfg.wildcard) :
    ∀ (fuel : Nat) (mode : Mode) (tail : Bytes), mode ≠ .matched →
      runLoop cfg rs (P.length + fuel) (encodeAll P ++ tail) mode st =
        runLoop cfg rs fuel tail (if P = [] then mode else .pending) st := by
  induction P with
  | nil => intro fuel mode tail _; simp [encodeAll]
  | cons i P ih =>
    intro fuel mode tail hmode
    obtain ⟨hop, hf, hs⟩ := hall i (List.mem_cons_self _ _)
    have hle : i.op ≤ _MAX := by rw [hop]; decide
    have e : (i :: P).length + fuel = (P.length + fuel) + 1 := by
      simp only [List.length_cons]; omega
    rw [e]
    simp only [encodeAll, List.append_assoc, runLoop]
    rw [fetch_encode cfg rs i _ mode st hf hle,
      execInstr_incmp_no_match cfg rs i _ mode st hmode hin hop hs]
    simp only
    rw [ih (fun x hx => hall x (List.mem_cons_of_mem _ hx)) fuel .pending tail (by decide)]
    simp

/-- The catch code of the test resource, `MOUT "0" "repent"; HALT`, adds its
menu entry and stops. -/
theorem runLoop_test_catch_code (cfg : VmConfig) (fuel : Nat) (st : VmState) :
    runLoop cfg TestResource (fuel + 2) (TestResource.GetCode catchSym) .fresh st =
      some { rest := [], err := none,
             st := { st with menu := st.menu ++ [(lit "0", lit "repent")] } } := by
  have hcode : TestResource.GetCode catchSym =
      Instr.encode { op := MOUT, strs := [lit "0", lit "repent"], arg := [], flags := [] } ++
        (Instr.encode { op := HALT, strs := [], arg := [], flags := [] } ++ []) := by
    rfl
  rw [hcode]
  have f1 : Instr.fits { op := MOUT, strs := [lit "0", lit "repent"], arg := [], flags := [] } := by
    refine ⟨by decide, by decide, ?_, by decide, by decide⟩
    intro s hs
    simp only [List.mem_cons, List.mem_singleton, List.not_mem_nil, or_false] at hs
    rcases hs with hs | hs <;> subst hs <;> decide
  have f2 : Instr.fits { op := HALT, strs := [], arg := [], flags := [] } := by
    refine ⟨by decide, by decide, ?_, by decide, by decide⟩
    intro s hs
    simp at hs
  simp only [runLoop]
  rw [fetch_encode cfg TestResource _ _ .fresh st f1 (by decide)]
  have x1 : execInstr cfg TestResource
      { op := MOUT, strs := [lit "0", lit "repent"], arg := [], flags := [] }
      (Instr.encode { op := HALT, strs := [], arg := [], flags := [] } ++ []) .fresh st =
      .next (Instr.encode { op := HALT, strs := [], arg := [], flags := [] } ++ []) .fresh
        { st with menu := st.menu ++ [(lit "0", lit "repent")] } := by
    rfl
  rw [x1]
  simp only
  rw [fetch_encode cfg TestResource _ _ .fresh _ f2 (by decide)]
  rfl

/-- C3: for every non-empty input and every code buffer made only of INCMP
instructions (one at least), none of whose match literal equals the input and
none of which is the wildcard, `Run` with the test resource (and fuel for the
instructions, the stop and the two instructions of the catch code) returns no
error, and leaves the navigation top at the reserved node `_catch`: the state
is the one it started from with the input-invalid flag set, the top frame
replaced by `_catch` and the menu entry of the catch code added. -/
theorem Run_incmp_catch (cfg : VmConfig) (fuel : Nat) (P : List Instr) (st : VmState)
    (hP : P ≠ []) (hin : st.input ≠ []) (hflag : cfg.flagInvalid < st.flags.length)
    (hall : ∀ i ∈ P, i.op = INCMP ∧ i.fits ∧
      ∃ m t more, i.strs = m :: t :: more ∧ m ≠ st.input ∧ m ≠ cfg.wildcard)
    (hfuel : P.length + 3 ≤ fuel) :
    ∃ r, Run cfg TestResource fuel (encodeAll P) st = some r ∧ r.rest = [] ∧ r.err = none ∧
      r.st.Where = lit "_catch" ∧
      r.st = { VmState.replaceTop { st with flags := st.flags.set cfg.flagInvalid true }
                 catchSym with
               menu := st.menu ++ [(lit "0", lit "repent")] } := by
  obtain ⟨k, rfl⟩ := Nat.exists_eq_add_of_le hfuel
  have e : P.length + 3 + k = P.length + ((k + 2) + 1) := by omega
  have h1 := runLoop_incmp_no_match cfg TestResource P st hin hall ((k + 2) + 1) .fresh []
    (by decide)
  simp only [List.append_nil, hP, if_false] at h1
  have h2 : catchEnter cfg TestResource st =
      .ok (TestResource.GetCode catchSym,
        VmState.replaceTop { st with flags := st.flags.set cfg.flagInvalid true } catchSym) := by
    simp only [catchEnter, VmState.SetFlag, hflag, if_true, TestResource]
  refine ⟨{ rest := [], err := none,
             st := { VmState.replaceTop { st with flags := st.flags.set cfg.flagInvalid true }
                       catchSym with
                     menu := st.menu ++ [(lit "0", lit "repent")] } }, ?_, rfl, rfl, rfl, rfl⟩
  have h3 : fetch cfg TestResource [] .pending st = .stop [] := rfl
  rw [Run, e, h1, runLoop_succ, h3]
  simp only [h2, if_true]
  rw [runLoop_test_catch_code cfg k _]
  rfl

theorem flagCond_congr (i : Instr) (st st1 : VmState) (h : st1.flags = st.flags) :
    flagCond i st1 = flagCond i st := by
  simp only [flagCond, VmState.GetFlag, h]

theorem Up_flags (st st1 : VmState) (h : st.Up = .ok st1) : st1.flags = st.flags := by
  unfold VmState.Up at h
  split at h
  · cases h; rfl
  · cases h

theorem execSimple_flags (rs : Resolver) (i : Instr) (st st1 : VmState)
    (h : execSimple rs i st = .ok st1) : st1.flags = st.flags := by
  unfold execSimple at h
  repeat' split at h
  all_goals first
    | (cases h; rfl)
    | (cases h)

/-- One instruction other than HALT, and other than a CATCH whose condition
holds, either fails, or goes on with the buffer that follows it, whatever that
buffer is, and leaves the flag register as it was. -/
theorem execInstr_cases (cfg : VmConfig) (rs : Resolver) (i : Instr) (mode : Mode)
    (st : VmState) (hh : i.op ≠ HALT) (hc : i.op = CATCH → flagCond i st ≠ .ok true) :
    (∃ mode1 st1, st1.flags = st.flags ∧
      ∀ rest, execInstr cfg rs i rest mode st = .next rest mode1 st1) ∨
    (∀ rest, ∃ r, execInstr cfg rs i rest mode st = .fail r ∧ r.err ≠ none) ∨
    (∃ e, ∀ rest, execInstr cfg rs i rest mode st = .abort rest e) := by
  have k1 : ¬ (CATCH = HALT) := by decide
  have k2 : ¬ (CROAK = HALT) := by decide
  have k3 : ¬ (CROAK = CATCH) := by decide
  have k4 : ¬ (INCMP = HALT) := by decide
  have k5 : ¬ (INCMP = CATCH) := by decide
  have k6 : ¬ (INCMP = CROAK) := by decide
  by_cases hm : mode = .matched
  · left
    exact ⟨.matched, st, rfl, fun rest => by simp only [execInstr, hh, hm, if_false, if_true]⟩
  by_cases h1 : i.op = CATCH
  · have hc1 := hc h1
    cases hs : i.strs with
    | nil =>
      right; left
      intro rest
      exact ⟨_, by simp only [execInstr, hh, hm, k1, k2, k3, k4, k5, k6, h1, hs, if_false, if_true]; rfl, by simp⟩
    | cons sym more =>
      cases hf : flagCond i st with
      | error e =>
        right; left
        intro rest
        exact ⟨_, by simp only [execInstr, hh, hm, k1, k2, k3, k4, k5, k6, h1, hs, hf, if_false, if_true]; rfl, by simp⟩
      | ok v =>
        cases v with
        | true => exact absurd hf hc1
        | false =>
          left
          exact ⟨mode, st, rfl, fun rest => by
            simp only [execInstr, hh, hm, k1, k2, k3, k4, k5, k6, h1, hs, hf, if_false, if_true]⟩
  by_cases h2 : i.op = CROAK
  · cases hf : flagCond i st with
    | error e =>
      right; left
      intro rest
      exact ⟨_, by simp only [execInstr, hh, hm, k1, k2, k3, k4, k5, k6, h1, h2, hf, if_false, if_true]; rfl, by simp⟩
    | ok v =>
      cases v with
      | true =>
        right; left
        intro rest
        exact ⟨_, by simp only [execInstr, hh, hm, k1, k2, k3, k4, k5, k6, h1, h2, hf, if_false, if_true]; rfl, by simp⟩
      | false =>
        left
        exact ⟨mode, st, rfl, fun rest => by
          simp only [execInstr, hh, hm, k1, k2, k3, k4, k5, k6, h1, h2, hf, if_false, if_true]⟩
  by_cases h3 : i.op = INCMP
  · cases hs : i.strs with
    | nil =>
      right; left
      intro rest
      exact ⟨_, by simp only [execInstr, hh, hm, k1, k2, k3, k4, k5, k6, h1, h2, h3, hs, if_false, if_true]; rfl, by simp⟩
    | cons m more =>
      cases more with
      | nil =>
        right; left
        intro rest
        exact ⟨_, by simp only [execInstr, hh, hm, k1, k2, k3, k4, k5, k6, h1, h2, h3, hs, if_false, if_true]; rfl, by simp⟩
      | cons t more =>
        by_cases hi : inputMatches cfg m st.input = true
        · by_cases hb : m = cfg.backSel
          · subst hb
            cases hu : st.Up with
            | error e =>
              right; left
              intro rest
              exact ⟨_, by
                simp only [execInstr, hh, hm, k1, k2, k3, k4, k5, k6, h1, h2, h3, hs, hi, hu,
                  if_false, if_true, eq_self_iff_true]
                rfl, by simp⟩
            | ok st1 =>
              left
              exact ⟨.matched, st1, Up_flags st st1 hu, fun rest => by
                simp only [execInstr, hh, hm, k1, k2, k3, k4, k5, k6, h1, h2, h3, hs, hi, hu,
                  if_false, if_true, eq_self_iff_true]⟩
          · left
            exact ⟨.matched, st.Down t, rfl, fun rest => by
              simp only [execInstr, hh, hm, k1, k2, k3, k4, k5, k6, h1, h2, h3, hs, hi, hb, if_false, if_true]⟩
        · left
          exact ⟨.pending, st, rfl, fun rest => by
            simp only [execInstr, hh, hm, k1, k2, k3, k4, k5, k6, h1, h2, h3, hs, hi, if_false,
              if_true, Bool.false_eq_true]⟩
  cases he : execSimple rs i st with
  | error e =>
    by_cases hr : e.recoverable = true
    · right; right
      exact ⟨e, fun rest => by
        simp only [execInstr, hh, hm, h1, h2, h3, he, hr, if_false, if_true]⟩
    · right; left
      intro rest
      exact ⟨_, by
        simp only [execInstr, hh, hm, h1, h2, h3, he, hr, if_false]
        rfl, by simp⟩
  | ok st1 =>
    left
    exact ⟨mode, st1, execSimple_flags rs i st st1 he, fun rest => by
      simp only [execInstr, hh, hm, k1, k2, k3, k4, k5, k6, h1, h2, h3, he, if_false]⟩

theorem execInstr_halt (cfg : VmConfig) (rs : Resolver) (rest : Bytes) (mode : Mode)
    (st : VmState) : execInstr cfg rs haltInstr rest mode st = .stop rest := by
  simp [execInstr, haltInstr]

theorem haltInstr_fits : haltInstr.fits := by
  refine ⟨by decide, by decide, ?_, by decide, by decide⟩
  intro s hs
  simp [haltInstr] at hs

theorem halt_buffer_ne_nil (P : List Instr) : encodeAll P ++ haltInstr.encode ≠ [] := by
  intro h0
  have h1 := congrArg List.length h0
  simp [Instr.encode, NewLine, haltInstr, encodeStrings] at h1

/-- The tail after HALT is returned as it is and plays no part in the run:
when the instructions `P` followed by HALT run through without error, the
same buffer followed by any bytes `T` gives the same state and the remainder
`T`. -/
theorem runLoop_halt_tail (cfg : VmConfig) (rs : Resolver) (T : Bytes) (P : List Instr) :
    ∀ (fuel : Nat) (mode : Mode) (st : VmState) (st1 : VmState),
      (∀ i ∈ P, i.fits ∧ i.op ≤ _MAX ∧ i.op ≠ HALT) →
      (∀ i ∈ P, i.op = CATCH → flagCond i st ≠ .ok true) →
      runLoop cfg rs fuel (encodeAll P ++ haltInstr.encode) mode st =
        some { rest := [], err := none, st := st1 } →
      runLoop cfg rs fuel (encodeAll P ++ (haltInstr.encode ++ T)) mode st =
        some { rest := T, err := none, st := st1 } := by
  induction P with
  | nil =>
    intro fuel mode st st1 _ _ hrun
    cases fuel with
    | zero => simp [runLoop] at hrun
    | succ fuel =>
      have e0 : encodeAll [] ++ haltInstr.encode = haltInstr.encode ++ [] := by
        simp [encodeAll]
      rw [e0, runLoop_succ, fetch_encode cfg rs _ _ mode st haltInstr_fits (by decide),
        execInstr_halt] at hrun
      simp only [encodeAll, List.nil_append]
      rw [runLoop_succ, fetch_encode cfg rs _ _ mode st haltInstr_fits (by decide),
        execInstr_halt]
      simp only at hrun ⊢
      by_cases hm : mode = .pending
      · simp only [hm, if_true] at hrun ⊢
        cases hce : catchEnter cfg rs st with
        | error e => rw [hce] at hrun; obtain ⟨e1, s1⟩ := e; simp at hrun
        | ok v =>
          obtain ⟨code, s1⟩ := v
          rw [hce] at hrun
          simp only at hrun ⊢
          cases hn : runLoop cfg rs fuel code .fresh s1 with
          | none => rw [hn] at hrun; simp at hrun
          | some r0 =>
            rw [hn] at hrun
            simp only [Option.some.injEq, RunResult.mk.injEq] at hrun ⊢
            exact ⟨trivial, hrun.2.1, hrun.2.2⟩
      · simp only [hm, if_false, Option.some.injEq, RunResult.mk.injEq] at hrun ⊢
        exact ⟨trivial, hrun.2.1, hrun.2.2⟩
  | cons i P ih =>
    intro fuel mode st st1 hP hcatch hrun
    obtain ⟨hf, hle, hh⟩ := hP i (List.mem_cons_self _ _)
    cases fuel with
    | zero => simp [runLoop] at hrun
    | succ fuel =>
      simp only [encodeAll, List.append_assoc] at hrun ⊢
      rw [runLoop_succ, fetch_encode cfg rs i _ mode st hf hle] at hrun
      rw [runLoop_succ, fetch_encode cfg rs i _ mode st hf hle]
      rcases execInstr_cases cfg rs i mode st hh (hcatch i (List.mem_cons_self _ _)) with
        ⟨mode1, s1, hfl, hnext⟩ | hfail | ⟨e, habort⟩
      · rw [hnext] at hrun
        rw [hnext]
        simp only at hrun ⊢
        refine ih fuel mode1 s1 st1 (fun x hx => hP x (List.mem_cons_of_mem _ hx)) ?_ hrun
        intro x hx hxc
        rw [flagCond_congr x st s1 hfl]
        exact hcatch x (List.mem_cons_of_mem _ hx) hxc
      · obtain ⟨r0, h1, h2⟩ := hfail (encodeAll P ++ haltInstr.encode)
        rw [h1] at hrun
        simp only [Option.some.injEq] at hrun
        rw [hrun] at h2
        exact absurd rfl h2
      · rw [habort] at hrun
        simp only at hrun
        have hne := halt_buffer_ne_nil P
        exfalso
        split at hrun
        · split at hrun
          · simp only [Option.some.injEq, RunResult.mk.injEq] at hrun
            exact hne hrun.1
          · split at hrun
            · cases hrun
            · simp only [Option.some.injEq, RunResult.mk.injEq] at hrun
              exact hne hrun.1
        · simp at hrun

/-- C2, as amended: for every code buffer `P ++ HALT ++ T` where `P` is a
sequence of instructions with no HALT and no CATCH whose flag condition holds
in the flag register at the start, and `P` followed by HALT executes without
error (it runs through: `Run` returns no error and nothing of it is left),
`Run` returns `T` byte for byte as the remainder, with no error and with the
state that `P` and HALT alone leave: no byte of `T` is decoded or executed. -/
theorem Run_halt_returns_tail (cfg : VmConfig) (rs : Resolver) (fuel : Nat) (P : List Instr)
    (T : Bytes) (st : VmState) (st1 : VmState)
    (hP : ∀ i ∈ P, i.fits ∧ i.op ≤ _MAX ∧ i.op ≠ HALT)
    (hcatch : ∀ i ∈ P, i.op = CATCH → flagCond i st ≠ .ok true)
    (hrun : Run cfg rs fuel (encodeAll P ++ haltInstr.encode) st =
      some { rest := [], err := none, st := st1 }) :
    Run cfg rs fuel (encodeAll P ++ haltInstr.encode ++ T) st =
      some { rest := T, err := none, st := st1 } := by
  rw [Run, List.append_assoc]
  exact runLoop_halt_tail cfg rs T P fuel .fresh st st1 hP hcatch hrun

/-- Scenario S5 (`TestHalt`): after `MOVE "root"; LOAD "one"; HALT; MOVE "foo"` the state is at `root`, and the remainder is the instruction `MOVE "foo"`, which begins with the bytes `00 06`. -/
theorem Run_halt_returns_tail_witness :
    (∀ i ∈ haltTestHead, i.fits ∧ i.op ≤ _MAX ∧ i.op ≠ HALT) ∧
    (∀ i ∈ haltTestHead, i.op ≠ CATCH) ∧
    encodeAll haltTestHead ++ haltInstr.encode ++ haltTestTail =
      NewLine (NewLine (NewLine (NewLine [] MOVE [lit "root"] [] []) LOAD [lit "one"] [] [0])
        HALT [] [] []) MOVE [lit "foo"] [] [] ∧
    Run testConfig TestResource 10 (encodeAll haltTestHead ++ haltInstr.encode) newState =
      some { rest := [], err := none, st := haltTestState } ∧
    Run testConfig TestResource 10 (encodeAll haltTestHead ++ haltInstr.encode ++ haltTestTail)
        newState =
      some { rest := haltTestTail, err := none, st := haltTestState } ∧
    haltTestState.Where ≠ lit "foo" ∧
    haltTestTail.take 2 = [0x00, MOVE] :=
  ⟨by decide, by decide, rfl, rfl,
    Run_halt_returns_tail testConfig TestResource 10 haltTestHead haltTestTail newState
      haltTestState (by decide)
      (fun i hi hc => absurd hc ((by decide : ∀ i ∈ haltTestHead, i.op ≠ CATCH) i hi)) rfl,
    by decide, by decide⟩

/-- C2, as stated, fails: the buffer `CATCH "err" (flag 8); HALT; MOVE "foo"`
has a head with no HALT that runs without error when flag 8 is set, yet the
remainder `Run` returns is empty, not the tail `MOVE "foo"`: the CATCH fires,
replaces the navigation frame by `err` and discards the remaining code. -/
theorem Run_catch_discards_tail :
    (∀ i ∈ [catchErr], i.fits ∧ i.op ≤ _MAX ∧ i.op ≠ HALT) ∧
    Run testConfig TestResource 10 (encodeAll [catchErr] ++ haltInstr.encode) flaggedState =
      some { rest := [], err := none, st := flaggedState.replaceTop (lit "err") } ∧
    Run testConfig TestResource 10 (encodeAll [catchErr] ++ haltInstr.encode ++ haltTestTail)
        flaggedState =
      some { rest := [], err := none, st := flaggedState.replaceTop (lit "err") } ∧
    haltTestTail ≠ [] ∧
    Run testConfig TestResource 10 (encodeAll [catchErr] ++ haltInstr.encode ++ haltTestTail)
        flaggedState ≠
      some { rest := haltTestTail, err := none, st := flaggedState.replaceTop (lit "err") } :=
  ⟨by decide, rfl, rfl, by decide, by decide⟩

/-- Scenario S6 (`TestRunArgInvalid`): input `foo`, code `INCMP "bar" "baz"`, at the node `root`. -/
theorem Run_incmp_catch_witness :
    argInvalidCode ≠ [] ∧ argInvalidState.input ≠ [] ∧
    testConfig.flagInvalid < argInvalidState.flags.length ∧
    (∀ i ∈ argInvalidCode, i.op = INCMP ∧ i.fits ∧
      ∃ m t more, i.strs = m :: t :: more ∧ m ≠ argInvalidState.input ∧
        m ≠ testConfig.wildcard) ∧
    encodeAll argInvalidCode = NewLine [] INCMP [lit "bar", lit "baz"] [] [] ∧
    ∃ r, Run testConfig TestResource 4 (encodeAll argInvalidCode) argInvalidState = some r ∧
      r.rest = [] ∧ r.err = none ∧ r.st.Where = lit "_catch" ∧
      r.st = { VmState.replaceTop { argInvalidState with
                   flags := argInvalidState.flags.set testConfig.flagInvalid true } catchSym with
               menu := argInvalidState.menu ++ [(lit "0", lit "repent")] } :=
  have hall : ∀ i ∈ argInvalidCode, i.op = INCMP ∧ i.fits ∧
      ∃ m t more, i.strs = m :: t :: more ∧ m ≠ argInvalidState.input ∧
        m ≠ testConfig.wildcard := by
    intro i hi
    simp only [argInvalidCode, List.mem_singleton] at hi
    subst hi
    exact ⟨rfl, by decide, lit "bar", lit "baz", [], rfl, by decide, by decide⟩
  ⟨by decide, by decide, by decide, hall, rfl,
    Run_incmp_catch testConfig 4 argInvalidCode argInvalidState (by decide) (by decide)
      (by decide) hall (by decide)⟩

end vm
